import Mathlib

/-!
Verification of the sim2net simulation core: the simulation clock
(`sim2net/_time.py`), the communication channel (`sim2net/_channel.py`) and
the network orchestrator (`sim2net/_network.py`).

Python floats are modelled as rationals (`ℚ`), machine integers as `ℤ`/`ℕ`.
The pseudo-random generator (`sim2net/utility/randomness.py`) wraps CPython's
`random.uniform(a, b) = a + (b - a) * random()`, where `random()` draws from
`[0, 1)`; it is modelled by an explicit stream `r : ℕ → ℚ` of raw draws.
The packet-loss collaborator's `packet_loss() -> bool` calls are modelled by a
stream `pl : ℕ → Bool` together with a cursor counting the calls made so far.
Fallible code (`raise ValueError`, the `TypeError` that iterating over `None`
would raise) is modelled with `Except String`.
-/

namespace Sim2net

/-- Simulation clock state (`sim2net/_time.py`, class `Time`): the current
simulation step and time, and the frequency/period constants fixed by
`setup`.  `simulation_frequency` is stored as `float(simulation_frequency)`
in the source, hence a `ℚ` field here. -/
structure Time where
  simulation_step : ℤ
  simulation_time : ℚ
  simulation_frequency : ℚ
  simulation_period : ℚ
deriving Repr, DecidableEq

namespace Time

/-- `Time.setup`: raises `ValueError` when the given frequency is `≤ 0`;
otherwise initializes `simulation_step = -1`, `simulation_time = -1.0`,
`simulation_frequency = float(f)` and `simulation_period = 1.0 / f`. -/
def setup (simulation_frequency : ℤ) : Except String Time :=
  if simulation_frequency ≤ 0 then
    .error "ValueError: the simulation frequency cannot be less or equal to zero"
  else
    .ok { simulation_step := -1
          simulation_time := -1
          simulation_frequency := (simulation_frequency : ℚ)
          simulation_period := 1 / (simulation_frequency : ℚ) }

/-- `Time.tick`: advances the step by `__SIMULATION_TICK = 1`, recomputes
`simulation_time = simulation_step / simulation_frequency`, and returns the
pair `(simulation_step, simulation_time)`. -/
def tick (t : Time) : Time × (ℤ × ℚ) :=
  let step := t.simulation_step + 1
  let time := (step : ℚ) / t.simulation_frequency
  ({ t with simulation_step := step, simulation_time := time }, (step, time))

/-- The clock state after `n` calls to `tick`. -/
def tickN (t : Time) : ℕ → Time
  | 0 => t
  | n + 1 => (tickN t n).tick.1

/-- The `simulation_step` property getter: returns the value and leaves the
state untouched. -/
def step_property (t : Time) : ℤ × Time := (t.simulation_step, t)

/-- The `simulation_time` property getter. -/
def time_property (t : Time) : ℚ × Time := (t.simulation_time, t)

/-- The `simulation_frequency` property getter (the source truncates the
stored float with `int(...)`; on a value set by `setup` this is exact). -/
def frequency_property (t : Time) : ℚ × Time := (t.simulation_frequency, t)

/-- The `simulation_period` property getter. -/
def period_property (t : Time) : ℚ × Time := (t.simulation_period, t)

end Time

/-- CPython's `random.uniform(a, b)` is `a + (b - a) * random()` with
`random() ∈ [0, 1)`; `r` is the raw `random()` draw
(`sim2net/utility/randomness.py`, `_Randomness.uniform`). -/
def uniform (a b r : ℚ) : ℚ := a + (b - a) * r

/-- In-flight packet of an output channel (`sim2net/_channel.py`): the source
stores it as the 5-element list
`[transmission start time, transmission end time, packet identifier,
(sending node identifier, message), list of neighboring nodes]`,
where the last component is `None` until the target set is resolved. -/
structure Packet (α : Type) where
  transmission_start : ℚ
  transmission_end : ℚ
  packet_id : ℤ
  sender_message : ℕ × α
  target_neighbors : Option (List ℕ)
deriving Repr, DecidableEq

/-- The current target list of a packet (`[]` when still unresolved). -/
def Packet.targets {α : Type} (p : Packet α) : List ℕ :=
  p.target_neighbors.getD []

/-- `list(set(a) - set(b))` on lists of node identifiers: membership-faithful
deterministic representative (the CPython result has set-iteration order). -/
def setDiff (a b : List ℕ) : List ℕ := a.dedup.filter (fun x => ¬ x ∈ b)

/-- `list(set(a) & set(b))` on lists of node identifiers. -/
def setInter (a b : List ℕ) : List ℕ := a.dedup.filter (fun x => x ∈ b)

/-- Output-channel state (`sim2net/_channel.py`, class `_Output`). -/
structure Output (α : Type) where
  node_id : ℕ
  packet_counter : ℤ
  maximum_transmission_time : ℚ
  next_transmission_time : ℚ
  transmitted_packets : List (Packet α)
deriving Repr, DecidableEq

instance {α : Type} : Inhabited (Output α) :=
  ⟨{ node_id := 0, packet_counter := -1, maximum_transmission_time := 0,
     next_transmission_time := -1, transmitted_packets := [] }⟩

namespace Output

/-- `_Output.__init__`: the packet counter starts at `int(-1)` and
`next_transmission_time` at `float(-1.0)`, with an empty packet queue. -/
def init {α : Type} (node_id : ℕ) (maximum_transmission_time : ℚ) : Output α :=
  { node_id := node_id
    packet_counter := -1
    maximum_transmission_time := maximum_transmission_time
    next_transmission_time := -1
    transmitted_packets := [] }

/-- `_Output.__get_transmission_neighbors`: returns the given neighbor list
when `transmission_time ≤ simulation_time + simulation_period`, and `None`
otherwise. -/
def get_transmission_neighbors (time : Time) (transmission_time : ℚ)
    (neighbors : List ℕ) : Option (List ℕ) :=
  if transmission_time ≤ time.simulation_time + time.simulation_period then
    some neighbors
  else
    none

/-- The `while True` re-draw loop of `_Output.send_message`: keeps drawing
`uniform(0.0, maximum_transmission_time)` until the draw is strictly
positive.  `fuel` bounds the number of iterations we unfold; `none` means the
loop has not terminated within `fuel` draws. -/
def drawTransmissionTime (maximum_transmission_time : ℚ) (r : ℕ → ℚ) :
    ℕ → Option ℚ
  | 0 => none
  | fuel + 1 =>
    let t := uniform 0 maximum_transmission_time (r 0)
    if 0 < t then some t
    else drawTransmissionTime maximum_transmission_time (fun i => r (i + 1)) fuel

/-- The part of `_Output.send_message` that runs after the non-empty check
and the duration re-draw loop, given the drawn transmission time `d`:
increments the packet counter, raises `next_transmission_time` to the current
simulation time if it lags behind, resolves the target set for the scheduled
start time, appends the new packet, and advances `next_transmission_time` by
the transmission time. -/
def send_message_core {α : Type} (st : Output α) (time : Time) (message : α)
    (neighbors : List ℕ) (d : ℚ) : Output α :=
  let counter := st.packet_counter + 1
  let start := if st.next_transmission_time < time.simulation_time then
                 time.simulation_time
               else st.next_transmission_time
  let packet_neighbors := get_transmission_neighbors time start neighbors
  { st with
    packet_counter := counter
    next_transmission_time := start + d
    transmitted_packets := st.transmitted_packets ++
      [{ transmission_start := start
         transmission_end := start + d
         packet_id := counter
         sender_message := (st.node_id, message)
         target_neighbors := packet_neighbors }] }

/-- `_Output.send_message`: discards an empty (falsy) message without
creating a packet; otherwise draws a strictly positive transmission time and
runs `send_message_core`.  `falsy` models Python's `not message` test on the
opaque payload; the result is `none` when the re-draw loop does not
terminate within `fuel` iterations. -/
def send_message {α : Type} (st : Output α) (time : Time) (falsy : α → Bool)
    (message : α) (neighbors : List ℕ) (r : ℕ → ℚ) (fuel : ℕ) :
    Option (Output α) :=
  if falsy message then some st
  else
    (drawTransmissionTime st.maximum_transmission_time r fuel).map
      (fun d => send_message_core st time message neighbors d)

/-- The per-packet body of the `for` loop in `_Output.transmit_packets`:
resolve the target set if it is still `None`, then, if the packet's window
contains the current simulation time and the target list is non-empty,
intersect it with the current neighbor set. -/
def transmitOnePacket {α : Type} (time : Time) (neighbors : List ℕ)
    (p : Packet α) : Packet α :=
  let p₁ :=
    match p.target_neighbors with
    | none => { p with target_neighbors :=
                  get_transmission_neighbors time p.transmission_start neighbors }
    | some _ => p
  if p₁.transmission_start ≤ time.simulation_time ∧
      time.simulation_time ≤ p₁.transmission_end then
    match p₁.target_neighbors with
    | some ts => if ts = [] then p₁
                 else { p₁ with target_neighbors := some (setInter ts neighbors) }
    | none => p₁
  else p₁

/-- `_Output.transmit_packets`: applies the loop body to every in-flight
packet (the loop mutates each list element in place). -/
def transmit_packets {α : Type} (st : Output α) (time : Time)
    (neighbors : List ℕ) : Output α :=
  { st with transmitted_packets :=
      st.transmitted_packets.map (transmitOnePacket time neighbors) }

end Output

/-- A value returned by `_Output.deliver_packet`: the packet identifier, the
`(sender identifier, message)` pair, and the list of receiving nodes. -/
abbrev Delivery (α : Type) := ℤ × (ℕ × α) × List ℕ

/-- The losses computed by the list comprehension
`[neighbor for neighbor in packet[-1] if self.__packet_loss.packet_loss()]`:
one `packet_loss()` call per element of the target list, in order; `idx` is
the cursor into the stream of loss draws. -/
def lossesOf (pl : ℕ → Bool) : ℕ → List ℕ → List ℕ
  | _, [] => []
  | idx, n :: rest =>
    if pl idx then n :: lossesOf pl (idx + 1) rest
    else lossesOf pl (idx + 1) rest

namespace Output

/-- `_Output.deliver_packet` as a function of the packet queue: examines the
front packet; when its window has not yet ended the call returns `none` and
the queue is unchanged; otherwise it applies the loss model to each current
target, pops the packet, and either silently drops it (no surviving target,
continuing with the new front) or returns it as a delivery.  Iterating over a
`None` target list would raise a `TypeError` in the source.  The result also
carries the new loss-draw cursor. -/
def deliver_packet {α : Type} (time : Time) (pl : ℕ → Bool) :
    List (Packet α) → ℕ →
    Except String (Option (Delivery α) × List (Packet α) × ℕ)
  | [], idx => .ok (none, [], idx)
  | p :: rest, idx =>
    if time.simulation_time < p.transmission_end then .ok (none, p :: rest, idx)
    else
      match p.target_neighbors with
      | none => .error "TypeError: NoneType object is not iterable"
      | some ts =>
        if setDiff ts (lossesOf pl idx ts) = [] then
          deliver_packet time pl rest (idx + ts.length)
        else
          .ok (some (p.packet_id, p.sender_message,
                     setDiff ts (lossesOf pl idx ts)), rest, idx + ts.length)

/-- Calling `_Output.deliver_packet` repeatedly, as the orchestrator does,
until it returns `None` (or `fuel` runs out): collects the returned
deliveries in order. -/
def deliver_repeat {α : Type} (time : Time) (pl : ℕ → Bool) :
    ℕ → List (Packet α) → ℕ →
    Except String (List (Delivery α) × List (Packet α) × ℕ)
  | 0, q, idx => .ok ([], q, idx)
  | fuel + 1, q, idx =>
    match deliver_packet time pl q idx with
    | .error e => .error e
    | .ok (none, q', idx') => .ok ([], q', idx')
    | .ok (some d, q', idx') =>
      match deliver_repeat time pl fuel q' idx' with
      | .error e => .error e
      | .ok (ds, q'', idx'') => .ok (d :: ds, q'', idx'')

end Output

/-- Input-channel state (`sim2net/_channel.py`, class `_Input`): the FIFO
list of captured `(sender identifier, message)` pairs. -/
structure Input (α : Type) where
  node_id : ℕ
  captured_packets : List (ℕ × α)
deriving Repr, DecidableEq

namespace Input

/-- `_Input.capture_packet`: appends the transported
`(sender identifier, message)` pair — the second component of the captured
`(packet identifier, (sender identifier, message))` tuple — to the mailbox. -/
def capture_packet {α : Type} (st : Input α) (packet : ℤ × (ℕ × α)) : Input α :=
  { st with captured_packets := st.captured_packets ++ [packet.2] }

/-- `_Input.receive_message`: pops and returns the oldest mailbox entry, or
`None` when the mailbox is empty. -/
def receive_message {α : Type} (st : Input α) : Option (ℕ × α) × Input α :=
  match st.captured_packets with
  | [] => (none, st)
  | m :: rest => (some m, { st with captured_packets := rest })

end Input

/-- `Channel.__init__` argument validation (`sim2net/_channel.py`): rejects a
negative node identifier and a *negative* maximum transmission time
(`maximum_transmission_time < 0.0`), then initializes the `_Output` state.
The `time`/`packet_loss` `None` checks concern absent collaborators and are
not representable here. -/
def Channel.init {α : Type} (node_id : ℤ) (maximum_transmission_time : ℚ) :
    Except String (Output α) :=
  if node_id < 0 then
    .error "ValueError: a value of the identifier cannot be less that zero"
  else if maximum_transmission_time < 0 then
    .error "ValueError: a value of the maximum message transmission time cannot be less that zero"
  else
    .ok (Output.init node_id.toNat maximum_transmission_time)

instance {α : Type} : Inhabited (Input α) := ⟨{ node_id := 0, captured_packets := [] }⟩

/-- Observable events of one `Network.step` call (`sim2net/_network.py`).
The application collaborator is external to the core, so its callbacks are
recorded as events (which callback ran, on which node, with which clock
reading) rather than interpreted. -/
inductive Event
  | failureCb (node : ℕ) (clock : ℤ × ℚ)
  | move (node : ℕ)
  | neighborhoodRecompute
  | transmit (node : ℕ)
  | deliverLoop (node : ℕ)
  | capture (receiver : ℕ) (sender : ℕ)
  | appMain (node : ℕ) (clock : ℤ × ℚ)
  | clockTick (result : ℤ × ℚ)
deriving Repr, DecidableEq

/-- The phase of `Network.step` an event belongs to, in execution order:
failure = 0, move = 1, neighborhood = 2, then within the communication phase
all transmissions (3) strictly before the delivery/capture loops (4), then
application execution (5), and finally the clock tick (6). -/
def Event.phase : Event → ℕ
  | .failureCb _ _ => 0
  | .move _ => 1
  | .neighborhoodRecompute => 2
  | .transmit _ => 3
  | .deliverLoop _ => 4
  | .capture _ _ => 4
  | .appMain _ _ => 5
  | .clockTick _ => 6

/-- The external collaborators injected into the orchestrator, at their
interface contracts (spec §6): the failure model (in-place flag update plus
the list of newly failed nodes), the mobility model, the propagation model,
and one packet-loss draw stream per node. -/
structure Environment (α γ σ : Type) where
  node_failure : List Bool → List Bool × List ℕ
  get_current_position : ℕ → σ → γ → γ
  get_neighbors : List γ → List (List ℕ)
  packet_loss : ℕ → ℕ → Bool

/-- The orchestrator state (`sim2net/_network.py`, class `Network`): the
node population with coordinates, speeds, neighbor lists, channels (output
queues and input mailboxes), failure flags, and the clock together with the
`current_time` tuple produced by the most recent tick. `loss_idx` tracks how
many packet-loss draws each node's channel has consumed. -/
structure Network (α γ σ : Type) where
  nodes_number : ℕ
  time : Time
  coordinates : List γ
  speeds : List σ
  neighbors : List (List ℕ)
  channels : List (Output α)
  inputs : List (Input α)
  failed : List Bool
  loss_idx : List ℕ
  current_time : ℤ × ℚ
deriving DecidableEq

namespace Network

variable {α γ σ : Type}

/-- `Network.__failure`: the failure collaborator updates the flag list in
place and returns the newly failed nodes; each newly failed node's
application gets its `failure` callback with the current clock reading. -/
def failure_phase (env : Environment α γ σ) (st : Network α γ σ) :
    Network α γ σ × List Event :=
  let res := env.node_failure st.failed
  ({ st with failed := res.1 },
   res.2.map (fun node => Event.failureCb node st.current_time))

/-- `Network.__move`: recomputes the coordinates of *every* node — failed or
not — through the mobility collaborator. -/
def move_phase [Inhabited γ] [Inhabited σ] (env : Environment α γ σ)
    (st : Network α γ σ) : Network α γ σ × List Event :=
  ({ st with coordinates :=
      (List.range st.nodes_number).map (fun node =>
        env.get_current_position node (st.speeds.getD node default)
          (st.coordinates.getD node default)) },
   (List.range st.nodes_number).map Event.move)

/-- `Network.__neighborhood`: recomputes all neighbor lists from the new
coordinates, then removes from each node's list every neighbor whose failure
flag is set (`list(set(neighbors[node]) - set(failures))`). -/
def neighborhood_phase (env : Environment α γ σ) (st : Network α γ σ) :
    Network α γ σ × List Event :=
  let raw := env.get_neighbors st.coordinates
  ({ st with neighbors :=
      (List.range st.nodes_number).map (fun node =>
        setDiff (raw.getD node [])
          ((raw.getD node []).filter (fun nb => st.failed.getD nb false))) },
   [Event.neighborhoodRecompute])

/-- One delivery handed to the input side of every receiving node:
`capture_packet((packet[0], packet[1]))` for each receiver in the delivered
target list. -/
def captureAll (inputs : List (Input α)) (d : Delivery α) :
    List (Input α) × List Event :=
  d.2.2.foldl
    (fun acc receiver =>
      (acc.1.set receiver ((acc.1.getD receiver default).capture_packet
         (d.1, d.2.1)),
       acc.2 ++ [Event.capture receiver d.2.1.1]))
    (inputs, [])

/-- The `while True` delivery loop of `Network.__communication` for one
node: call `deliver_packet` until it returns `None`, capturing every
delivered packet at all of its receivers. -/
def deliverNode (time : Time) (pl : ℕ → Bool) (ch : Output α) (idx : ℕ)
    (inputs : List (Input α)) :
    Except String (Output α × ℕ × List (Input α) × List Event) :=
  match Output.deliver_repeat time pl ch.transmitted_packets.length
      ch.transmitted_packets idx with
  | .error e => .error e
  | .ok (ds, q', idx') =>
    let folded := ds.foldl
      (fun acc d =>
        let ce := captureAll acc.1 d
        (ce.1, acc.2 ++ ce.2))
      (inputs, [])
    .ok ({ ch with transmitted_packets := q' }, idx', folded.1, folded.2)

/-- The per-node delivery loops of `Network.__communication`, in node
order, threading the channels, loss-draw cursors and input mailboxes. -/
def deliver_all (packet_loss : ℕ → ℕ → Bool) (time : Time) :
    List ℕ → List (Output α) → List ℕ → List (Input α) →
    Except String (List (Output α) × List ℕ × List (Input α) × List Event)
  | [], chs, idxs, inputs => .ok (chs, idxs, inputs, [])
  | node :: rest, chs, idxs, inputs =>
    match deliverNode time (packet_loss node) (chs.getD node default)
        (idxs.getD node 0) inputs with
    | .error e => .error e
    | .ok (ch', idx', inputs', ev) =>
      match deliver_all packet_loss time rest (chs.set node ch')
          (idxs.set node idx') inputs' with
      | .error e => .error e
      | .ok (chs', idxs', inputs'', evs) =>
        .ok (chs', idxs', inputs'', (Event.deliverLoop node :: ev) ++ evs)

/-- `Network.__communication`: first `transmit_packets` for **every** node
with its current neighbor list, and only then the per-node delivery/capture
loops. -/
def communication_phase (env : Environment α γ σ) (st : Network α γ σ) :
    Except String (Network α γ σ × List Event) :=
  let channels₁ := (List.range st.nodes_number).map (fun node =>
    (st.channels.getD node default).transmit_packets st.time
      (st.neighbors.getD node []))
  match deliver_all env.packet_loss st.time (List.range st.nodes_number)
      channels₁ st.loss_idx st.inputs with
  | .error e => .error e
  | .ok (chs, idxs, inputs, evD) =>
    .ok ({ st with channels := chs, loss_idx := idxs, inputs := inputs },
         (List.range st.nodes_number).map Event.transmit ++ evD)

/-- `Network.__application`: runs the `main` callback of every node whose
failure flag is **not** set, passing the stored `current_time` reading. -/
def application_phase (st : Network α γ σ) : List Event :=
  ((List.range st.nodes_number).filter
      (fun node => ¬ st.failed.getD node false)).map
    (fun node => Event.appMain node st.current_time)

/-- `Network.step`: the five phases in their fixed order — failure, move,
neighborhood, communication, application — followed by the clock tick whose
result becomes the `current_time` of the next step. -/
def step [Inhabited γ] [Inhabited σ] (env : Environment α γ σ)
    (st : Network α γ σ) : Except String (Network α γ σ × List Event) :=
  let f := failure_phase env st
  let m := move_phase env f.1
  let nb := neighborhood_phase env m.1
  match communication_phase env nb.1 with
  | .error e => .error e
  | .ok (st₄, eC) =>
    let eA := application_phase st₄
    let t := st₄.time.tick
    .ok ({ st₄ with time := t.1, current_time := t.2 },
         f.2 ++ m.2 ++ nb.2 ++ eC ++ eA ++ [Event.clockTick t.2])

/-- `k` consecutive `Network.step` calls, concatenating their event
traces. -/
def stepN [Inhabited γ] [Inhabited σ] (env : Environment α γ σ) :
    ℕ → Network α γ σ → Except String (Network α γ σ × List Event)
  | 0, st => .ok (st, [])
  | k + 1, st =>
    match step env st with
    | .error e => .error e
    | .ok (st', tr) =>
      match stepN env k st' with
      | .error e => .error e
      | .ok (st'', trs) => .ok (st'', tr ++ trs)

end Network

/-- The queue invariant of an output channel (spec §3/§4.2): the in-flight
packets have pairwise non-overlapping windows in queue order, every window
has positive width, and `next_transmission_time` bounds every window end. -/
def Output.QueueOK {α : Type} (st : Output α) : Prop :=
  st.transmitted_packets.Chain'
    (fun a b => a.transmission_end ≤ b.transmission_start) ∧
  (∀ p ∈ st.transmitted_packets,
     p.transmission_start < p.transmission_end) ∧
  (∀ p ∈ st.transmitted_packets,
     p.transmission_end ≤ st.next_transmission_time)

/-- The effect of a sequence of `transmit_packets` calls — each with its own
clock state and neighbor snapshot — on a single in-flight packet
(`_Output.transmit_packets` applied repeatedly to one packet). -/
def Output.transmitTrace {α : Type} (calls : List (Time × List ℕ))
    (p : Packet α) : Packet α :=
  calls.foldl (fun q c => Output.transmitOnePacket c.1 c.2 q) p

instance {ε δ : Type} [DecidableEq ε] [DecidableEq δ] :
    DecidableEq (Except ε δ) := fun a b =>
  match a, b with
  | .error x, .error y =>
    if h : x = y then .isTrue (by rw [h])
    else .isFalse (by intro hc; cases hc; exact h rfl)
  | .error _, .ok _ => .isFalse (fun hc => Except.noConfusion hc)
  | .ok _, .error _ => .isFalse (fun hc => Except.noConfusion hc)
  | .ok x, .ok y =>
    if h : x = y then .isTrue (by rw [h])
    else .isFalse (by intro hc; cases hc; exact h rfl)

/-! ### Theorems -/

theorem Time.tick_fst_frequency (t : Time) :
    (t.tick.1).simulation_frequency = t.simulation_frequency := rfl

theorem Time.tick_fst_step (t : Time) :
    (t.tick.1).simulation_step = t.simulation_step + 1 := rfl

theorem Time.tickN_frequency (t : Time) :
    ∀ n : ℕ, (t.tickN n).simulation_frequency = t.simulation_frequency
  | 0 => rfl
  | n + 1 => by
    rw [Time.tickN, Time.tick_fst_frequency, Time.tickN_frequency t n]

theorem Time.tickN_step (t : Time) :
    ∀ n : ℕ, (t.tickN n).simulation_step = t.simulation_step + n
  | 0 => by simp [Time.tickN]
  | n + 1 => by
    rw [Time.tickN, Time.tick_fst_step, Time.tickN_step t n]
    push_cast
    ring

theorem Time.setup_ok {f : ℤ} (hf : 0 < f) :
    Time.setup f = .ok { simulation_step := -1, simulation_time := -1,
                         simulation_frequency := (f : ℚ),
                         simulation_period := 1 / (f : ℚ) } := by
  rw [Time.setup, if_neg (not_le.mpr hf)]

/-- **C7**: for every `frequency > 0`, after `setup(frequency)` the `n`-th
`tick()` (counting from `n = 0`) returns `(n, n/frequency)` — in particular
the first call returns `(0, 0.0)`; after any tick the clock satisfies
`simulation_time = simulation_step / simulation_frequency`; and the four
property getters leave the clock state unchanged. -/
theorem c7_clock_ticks (f : ℤ) (t₀ : Time) (hf : 0 < f)
    (hsetup : Time.setup f = .ok t₀) :
    (∀ n : ℕ, (t₀.tickN n).tick.2 = ((n : ℤ), (n : ℚ) / (f : ℚ))) ∧
    t₀.tick.2 = (0, 0) ∧
    (∀ t : Time, (t.tick.1).simulation_time =
        ((t.tick.1).simulation_step : ℚ) / (t.tick.1).simulation_frequency) ∧
    (∀ t : Time, t.step_property.2 = t ∧ t.time_property.2 = t ∧
        t.frequency_property.2 = t ∧ t.period_property.2 = t) := by
  rw [Time.setup_ok hf] at hsetup
  injection hsetup with hsetup
  subst hsetup
  have key : ∀ n : ℕ,
      (Time.tickN { simulation_step := -1, simulation_time := -1,
                    simulation_frequency := (f : ℚ),
                    simulation_period := 1 / (f : ℚ) } n).tick.2
        = ((n : ℤ), (n : ℚ) / (f : ℚ)) := by
    intro n
    rw [Time.tick]
    simp only [Time.tickN_step, Time.tickN_frequency]
    have h1 : (-1 : ℤ) + (n : ℤ) + 1 = (n : ℤ) := by ring
    rw [h1]
    norm_cast
  refine ⟨key, ?_, fun t => rfl, fun t => ⟨rfl, rfl, rfl, rfl⟩⟩
  have h0 := key 0
  simpa using h0

/-- Witness for `c7_clock_ticks` at `frequency = 4`, third tick. -/
theorem c7_clock_ticks_witness :
    (Time.tickN { simulation_step := -1, simulation_time := -1,
                  simulation_frequency := ((4 : ℤ) : ℚ),
                  simulation_period := 1 / ((4 : ℤ) : ℚ) } 3).tick.2
      = (((3 : ℕ) : ℤ), ((3 : ℕ) : ℚ) / ((4 : ℤ) : ℚ)) :=
  (c7_clock_ticks 4 _ (by decide) (Time.setup_ok (by decide))).1 3

theorem mem_setInter {x : ℕ} {a b : List ℕ} :
    x ∈ setInter a b ↔ x ∈ a ∧ x ∈ b := by
  simp [setInter, List.mem_filter, List.mem_dedup]

theorem mem_setDiff {x : ℕ} {a b : List ℕ} :
    x ∈ setDiff a b ↔ x ∈ a ∧ x ∉ b := by
  simp [setDiff, List.mem_filter, List.mem_dedup]

namespace Output

variable {α : Type}

/-- `transmit_packets` on a packet whose target set is already resolved:
the resolution step is skipped, and the intersection happens exactly when the
packet's window contains the current simulation time (with the source's
guard skipping the no-op intersection of an empty target list). -/
theorem transmitOnePacket_resolved (time : Time) (N : List ℕ)
    (p : Packet α) (ts : List ℕ) (h : p.target_neighbors = some ts) :
    transmitOnePacket time N p =
      if p.transmission_start ≤ time.simulation_time ∧
          time.simulation_time ≤ p.transmission_end then
        (if ts = [] then p
         else { p with target_neighbors := some (setInter ts N) })
      else p := by
  simp only [transmitOnePacket, h]

/-- `transmit_packets` on a packet whose target set is still unresolved:
the target set is resolved first, from the current neighbor snapshot. -/
theorem transmitOnePacket_unresolved (time : Time) (N : List ℕ)
    (p : Packet α) (h : p.target_neighbors = none) :
    transmitOnePacket time N p =
      (let p₁ := { p with target_neighbors :=
          get_transmission_neighbors time p.transmission_start N }
       if p₁.transmission_start ≤ time.simulation_time ∧
           time.simulation_time ≤ p₁.transmission_end then
         match p₁.target_neighbors with
         | some ts => if ts = [] then p₁
                      else { p₁ with target_neighbors := some (setInter ts N) }
         | none => p₁
       else p₁) := by
  simp only [transmitOnePacket, h]

theorem transmitOnePacket_start (time : Time) (N : List ℕ) (p : Packet α) :
    (transmitOnePacket time N p).transmission_start = p.transmission_start := by
  rcases h : p.target_neighbors with _ | ts
  · rw [transmitOnePacket_unresolved time N p h]
    rcases hg : get_transmission_neighbors time p.transmission_start N with _ | ts'
      <;> simp [hg] <;> split <;> simp_all <;> split <;> simp_all
  · rw [transmitOnePacket_resolved time N p ts h]
    split <;> [skip; rfl]
    split <;> rfl

theorem transmitOnePacket_end (time : Time) (N : List ℕ) (p : Packet α) :
    (transmitOnePacket time N p).transmission_end = p.transmission_end := by
  rcases h : p.target_neighbors with _ | ts
  · rw [transmitOnePacket_unresolved time N p h]
    rcases hg : get_transmission_neighbors time p.transmission_start N with _ | ts'
      <;> simp [hg] <;> split <;> simp_all <;> split <;> simp_all
  · rw [transmitOnePacket_resolved time N p ts h]
    split <;> [skip; rfl]
    split <;> rfl

end Output

/-- **C4**: target resolution returns the passed neighbor list exactly when
the transmission start time satisfies `start ≤ time + period`, and `None`
otherwise; the packet appended by `send_message` is resolved at send time
iff its start lies within the upcoming tick; and an unresolved packet is
resolved by a later `transmit_packets` call from that step's snapshot
(membership-wise; the same-step window intersection cannot change it), while
a packet whose start is still too far away stays unresolved. -/
theorem c4_resolve_targets_iff {α : Type} (time : Time) (s : ℚ)
    (N : List ℕ) (msg : α) (st : Output α) (d : ℚ) :
    (Output.get_transmission_neighbors time s N = some N ↔
        s ≤ time.simulation_time + time.simulation_period) ∧
    (Output.get_transmission_neighbors time s N = none ↔
        ¬ s ≤ time.simulation_time + time.simulation_period) ∧
    (∃ p : Packet α,
       (Output.send_message_core st time msg N d).transmitted_packets
         = st.transmitted_packets ++ [p] ∧
       (p.target_neighbors = some N ↔
         p.transmission_start ≤ time.simulation_time + time.simulation_period) ∧
       (p.target_neighbors = none ↔
         ¬ p.transmission_start ≤ time.simulation_time + time.simulation_period)) ∧
    (∀ p : Packet α, p.target_neighbors = none →
       p.transmission_start ≤ time.simulation_time + time.simulation_period →
       ∃ ts, (Output.transmitOnePacket time N p).target_neighbors = some ts ∧
         ∀ x, x ∈ ts ↔ x ∈ N) ∧
    (∀ p : Packet α, p.target_neighbors = none →
       ¬ p.transmission_start ≤ time.simulation_time + time.simulation_period →
       (Output.transmitOnePacket time N p).target_neighbors = none) := by
  have hres : ∀ u : ℚ, u ≤ time.simulation_time + time.simulation_period →
      Output.get_transmission_neighbors time u N = some N := by
    intro u hu
    rw [Output.get_transmission_neighbors, if_pos hu]
  have hnres : ∀ u : ℚ, ¬ u ≤ time.simulation_time + time.simulation_period →
      Output.get_transmission_neighbors time u N = none := by
    intro u hu
    rw [Output.get_transmission_neighbors, if_neg hu]
  refine ⟨?_, ?_, ?_, ?_, ?_⟩
  · constructor
    · intro h
      by_contra hu
      rw [hnres s hu] at h
      exact Option.noConfusion h
    · exact hres s
  · constructor
    · intro h hu
      rw [hres s hu] at h
      exact Option.noConfusion h
    · exact hnres s
  · refine ⟨_, rfl, ?_, ?_⟩
    · constructor
      · intro h
        by_contra hu
        rw [hnres _ hu] at h
        exact Option.noConfusion h
      · intro hu
        exact hres _ hu
    · constructor
      · intro h hu
        rw [hres _ hu] at h
        exact Option.noConfusion h
      · intro hu
        exact hnres _ hu
  · intro p hp hstart
    rw [Output.transmitOnePacket_unresolved time N p hp]
    simp only [hres _ hstart]
    split
    · split
      · exact ⟨N, rfl, fun x => Iff.rfl⟩
      · exact ⟨setInter N N, rfl, fun x => by rw [mem_setInter, and_self]⟩
    · exact ⟨N, rfl, fun x => Iff.rfl⟩
  · intro p hp hstart
    rw [Output.transmitOnePacket_unresolved time N p hp]
    simp only [hnres _ hstart]
    split <;> rfl

/-- Witness for `c4_resolve_targets_iff` on a concrete clock and packet. -/
theorem c4_resolve_targets_iff_witness :
    ∃ ts, (Output.transmitOnePacket
        { simulation_step := 0, simulation_time := 0,
          simulation_frequency := 1, simulation_period := 1 }
        [7]
        ({ transmission_start := 1 / 2, transmission_end := 1,
           packet_id := 0, sender_message := (0, "hello"),
           target_neighbors := none } : Packet String)).target_neighbors
      = some ts ∧ ∀ x, x ∈ ts ↔ x ∈ [7] :=
  (c4_resolve_targets_iff
      { simulation_step := 0, simulation_time := 0,
        simulation_frequency := 1, simulation_period := 1 }
      (1 / 2) [7] "hello" (Output.init 0 1) (1 / 2)).2.2.2.1
    _ rfl (by norm_num)

namespace Output

variable {α : Type}

theorem drawTransmissionTime_pos {M : ℚ} :
    ∀ (fuel : ℕ) (r : ℕ → ℚ) (d : ℚ),
      drawTransmissionTime M r fuel = some d →
      0 < d ∧ ∃ i, d = uniform 0 M (r i)
  | 0, r, d, h => by simp [drawTransmissionTime] at h
  | fuel + 1, r, d, h => by
    simp only [drawTransmissionTime] at h
    split at h
    · rw [Option.some.injEq] at h
      subst h
      exact ⟨by assumption, 0, rfl⟩
    · obtain ⟨hd, i, hi⟩ := drawTransmissionTime_pos fuel _ d h
      exact ⟨hd, i + 1, hi⟩

theorem drawTransmissionTime_zero :
    ∀ (fuel : ℕ) (r : ℕ → ℚ), drawTransmissionTime 0 r fuel = none
  | 0, _ => rfl
  | fuel + 1, r => by
    simp only [drawTransmissionTime, uniform]
    rw [if_neg (by norm_num)]
    exact drawTransmissionTime_zero fuel _

theorem drawTransmissionTime_isSome {M : ℚ} :
    ∀ (i : ℕ) (r : ℕ → ℚ), 0 < uniform 0 M (r i) →
      ∃ d, drawTransmissionTime M r (i + 1) = some d
  | 0, r, h => by
    simp only [drawTransmissionTime]
    rw [if_pos h]
    exact ⟨_, rfl⟩
  | i + 1, r, h => by
    simp only [drawTransmissionTime]
    split
    · exact ⟨_, rfl⟩
    · exact drawTransmissionTime_isSome i (fun j => r (j + 1)) h

/-- Any `.ok` result of `deliver_packet` has a queue that is a sublist of
the input queue: delivery only removes packets. -/
theorem deliver_packet_sublist (time : Time) (pl : ℕ → Bool) :
    ∀ (q : List (Packet α)) (idx : ℕ) res,
      deliver_packet time pl q idx = .ok res → res.2.1.Sublist q
  | [], idx, res, h => by
    rw [deliver_packet, Except.ok.injEq] at h
    subst h
    exact List.Sublist.refl _
  | p :: rest, idx, res, h => by
    rw [deliver_packet] at h
    split at h
    · rw [Except.ok.injEq] at h
      subst h
      exact List.Sublist.refl _
    · split at h
      · exact Except.noConfusion h
      · split at h
        · exact (deliver_packet_sublist time pl rest _ res h).cons p
        · rw [Except.ok.injEq] at h
          subst h
          exact (List.Sublist.refl rest).cons p

/-- Convenience restatement of `deliver_packet_sublist` for a destructured
result. -/
theorem deliver_packet_sublist_ok (time : Time) (pl : ℕ → Bool)
    (q : List (Packet α)) (idx : ℕ) (o : Option (Delivery α))
    (q' : List (Packet α)) (idx' : ℕ)
    (h : deliver_packet time pl q idx = .ok (o, q', idx')) : q'.Sublist q :=
  deliver_packet_sublist time pl q idx (o, q', idx') h

/-- Every delivery returned by `deliver_packet` originates from a packet of
the queue: same identifier and `(sender, message)` pair, a non-empty target
list, and targets drawn from that packet's current target set. -/
theorem deliver_packet_mem (time : Time) (pl : ℕ → Bool) :
    ∀ (q : List (Packet α)) (idx : ℕ) (d : Delivery α) q' idx',
      deliver_packet time pl q idx = .ok (some d, q', idx') →
      ∃ p, p ∈ q ∧ p.transmission_end ≤ time.simulation_time ∧
        d.1 = p.packet_id ∧ d.2.1 = p.sender_message ∧ d.2.2 ≠ [] ∧
        ∀ y ∈ d.2.2, y ∈ p.targets
  | [], idx, d, q', idx', h => by
    rw [deliver_packet] at h
    simp at h
  | p :: rest, idx, d, q', idx', h => by
    rw [deliver_packet] at h
    split at h
    · simp at h
    · next hready =>
      split at h
      · exact Except.noConfusion h
      · next ts hts =>
        split at h
        · obtain ⟨p', hp', hd⟩ := deliver_packet_mem time pl rest _ d q' idx' h
          exact ⟨p', List.mem_cons_of_mem _ hp', hd⟩
        · next hne =>
          rw [Except.ok.injEq, Prod.mk.injEq] at h
          obtain ⟨hd, -⟩ := h
          rw [Option.some.injEq] at hd
          subst hd
          refine ⟨p, List.mem_cons_self _ _, not_lt.mp hready, rfl, rfl, hne, ?_⟩
          intro y hy
          rw [mem_setDiff] at hy
          simp [Packet.targets, hts, hy.1]

/-- Lift of `deliver_packet_mem` to the repeated-delivery loop. -/
theorem deliver_repeat_mem (time : Time) (pl : ℕ → Bool) :
    ∀ (fuel : ℕ) (q : List (Packet α)) (idx : ℕ) outs q' idx',
      deliver_repeat time pl fuel q idx = .ok (outs, q', idx') →
      ∀ d ∈ outs, ∃ p, p ∈ q ∧ p.transmission_end ≤ time.simulation_time ∧
        d.1 = p.packet_id ∧ d.2.1 = p.sender_message ∧ d.2.2 ≠ [] ∧
        ∀ y ∈ d.2.2, y ∈ p.targets
  | 0, q, idx, outs, q', idx', h => by
    rw [deliver_repeat, Except.ok.injEq, Prod.mk.injEq] at h
    obtain ⟨h, -⟩ := h
    subst h
    intro d hd
    simp at hd
  | fuel + 1, q, idx, outs, q', idx', h => by
    rw [deliver_repeat] at h
    split at h
    · exact Except.noConfusion h
    · rw [Except.ok.injEq, Prod.mk.injEq] at h
      obtain ⟨h, -⟩ := h
      subst h
      intro d hd
      simp at hd
    · next d₀ q₀ idx₀ heq =>
      split at h
      · exact Except.noConfusion h
      · next outs₀ q₁ idx₁ hrec =>
        rw [Except.ok.injEq, Prod.mk.injEq] at h
        obtain ⟨h, -⟩ := h
        subst h
        intro d hd
        rcases List.mem_cons.mp hd with hd | hd
        · subst hd
          exact deliver_packet_mem time pl q idx d q₀ idx₀ heq
        · obtain ⟨p, hp, hfacts⟩ :=
            deliver_repeat_mem time pl fuel q₀ idx₀ outs₀ q₁ idx₁ hrec d hd
          exact ⟨p, (deliver_packet_sublist time pl q idx _ heq).mem hp, hfacts⟩

end Output

theorem chain_starts_ends {α : Type} :
    ∀ l : List (Packet α),
      l.Chain' (fun a b => a.transmission_end ≤ b.transmission_start) →
      (∀ p ∈ l, p.transmission_start < p.transmission_end) →
      l.Chain' (fun a b => a.transmission_start ≤ b.transmission_start) ∧
      l.Chain' (fun a b => a.transmission_end ≤ b.transmission_end)
  | [], _, _ => ⟨List.chain'_nil, List.chain'_nil⟩
  | [a], _, _ => ⟨List.chain'_singleton a, List.chain'_singleton a⟩
  | a :: b :: t, h, hlt => by
    rw [List.chain'_cons] at h
    obtain ⟨hab, h⟩ := h
    obtain ⟨h1, h2⟩ := chain_starts_ends (b :: t) h
      (fun p hp => hlt p (List.mem_cons_of_mem a hp))
    constructor
    · rw [List.chain'_cons]
      exact ⟨le_trans (le_of_lt (hlt a (List.mem_cons_self a _))) hab, h1⟩
    · rw [List.chain'_cons]
      refine ⟨le_trans hab (le_of_lt (hlt b ?_)), h2⟩
      exact List.mem_cons_of_mem a (List.mem_cons_self b t)

theorem if_lt_max (a b : ℚ) : (if a < b then b else a) = max a b := by
  rcases lt_or_le a b with h | h
  · rw [if_pos h, max_eq_right h.le]
  · rw [if_neg (not_lt.mpr h), max_eq_left h]

/-- **C3**: every successful `send_message` creates one packet with
`window_start = max(next_transmission_time, clock.time)` and
`window_end = window_start + d` for a transmission time
`d ∈ (0, maximum_transmission_time]`, then advances
`next_transmission_time` to the new `window_end`; the new packet's window
starts no earlier than every queued window's end (so two payloads sent in
the same step get non-overlapping windows, the second starting at or after
the first one's end), and the queue invariant — non-decreasing, pairwise
non-overlapping windows, hence non-decreasing `window_start` and
`window_end` — is preserved. -/
theorem c3_send_window_invariants {α : Type} (st st' : Output α)
    (time : Time) (falsy : α → Bool) (msg : α) (N : List ℕ) (r : ℕ → ℚ)
    (fuel : ℕ)
    (hq : st.QueueOK)
    (hr : ∀ i, 0 ≤ r i ∧ r i < 1)
    (hmsg : falsy msg = false)
    (hsend : Output.send_message st time falsy msg N r fuel = some st') :
    ∃ (d : ℚ) (pkt : Packet α),
      0 < d ∧ d ≤ st.maximum_transmission_time ∧
      pkt.transmission_start
        = max st.next_transmission_time time.simulation_time ∧
      pkt.transmission_end = pkt.transmission_start + d ∧
      st'.transmitted_packets = st.transmitted_packets ++ [pkt] ∧
      st'.next_transmission_time = pkt.transmission_end ∧
      (∀ p ∈ st.transmitted_packets,
         p.transmission_end ≤ pkt.transmission_start) ∧
      st'.QueueOK ∧
      st'.transmitted_packets.Chain'
        (fun a b => a.transmission_start ≤ b.transmission_start) ∧
      st'.transmitted_packets.Chain'
        (fun a b => a.transmission_end ≤ b.transmission_end) := by
  rw [Output.send_message,
    if_neg (by rw [hmsg]; exact Bool.false_ne_true)] at hsend
  rcases hdraw : Output.drawTransmissionTime st.maximum_transmission_time r fuel
    with _ | d
  · rw [hdraw] at hsend
    exact Option.noConfusion hsend
  rw [hdraw, Option.map_some', Option.some.injEq] at hsend
  obtain ⟨hd, i, hi⟩ := Output.drawTransmissionTime_pos fuel r d hdraw
  have hri : d = st.maximum_transmission_time * r i := by
    rw [hi, uniform]; ring
  have hrpos : 0 < r i := by
    rcases lt_or_le 0 (r i) with h | h
    · exact h
    · exfalso
      have h0 : r i = 0 := le_antisymm h (hr i).1
      rw [hri, h0, mul_zero] at hd
      exact lt_irrefl 0 hd
  have hMpos : 0 < st.maximum_transmission_time := by
    by_contra hM
    have : st.maximum_transmission_time * r i ≤ 0 :=
      mul_nonpos_of_nonpos_of_nonneg (not_lt.mp hM) (hr i).1
    rw [← hri] at this
    exact absurd hd (not_lt.mpr this)
  have hdM : d ≤ st.maximum_transmission_time := by
    rw [hri]
    calc st.maximum_transmission_time * r i
        ≤ st.maximum_transmission_time * 1 :=
          mul_le_mul_of_nonneg_left (hr i).2.le hMpos.le
      _ = st.maximum_transmission_time := mul_one _
  subst hsend
  simp only [Output.send_message_core, if_lt_max]
  set start := max st.next_transmission_time time.simulation_time with hstart
  have hnext_start : st.next_transmission_time ≤ start := le_max_left _ _
  have hold_end : ∀ p ∈ st.transmitted_packets,
      p.transmission_end ≤ start :=
    fun p hp => le_trans (hq.2.2 p hp) hnext_start
  set pkt : Packet α :=
    { transmission_start := start
      transmission_end := start + d
      packet_id := st.packet_counter + 1
      sender_message := (st.node_id, msg)
      target_neighbors := Output.get_transmission_neighbors time start N }
    with hpkt
  have hchain : (st.transmitted_packets ++ [pkt]).Chain'
      (fun a b => a.transmission_end ≤ b.transmission_start) := by
    rw [List.chain'_append]
    refine ⟨hq.1, List.chain'_singleton _, ?_⟩
    intro x hx y hy
    rw [List.head?_cons, Option.mem_def, Option.some.injEq] at hy
    subst hy
    exact hold_end x (List.mem_of_mem_getLast? hx)
  have hlt : ∀ p ∈ st.transmitted_packets ++ [pkt],
      p.transmission_start < p.transmission_end := by
    intro p hp
    rcases List.mem_append.mp hp with hp | hp
    · exact hq.2.1 p hp
    · rw [List.mem_singleton.mp hp]
      exact lt_add_of_pos_right start hd
  refine ⟨d, pkt, hd, hdM, rfl, rfl, rfl, rfl, hold_end,
    ⟨hchain, hlt, ?_⟩, (chain_starts_ends _ hchain hlt).1,
    (chain_starts_ends _ hchain hlt).2⟩
  intro p hp
  rcases List.mem_append.mp hp with hp | hp
  · exact le_trans (hold_end p hp) (le_add_of_nonneg_right hd.le)
  · rw [List.mem_singleton.mp hp]

/-- Witness for `c3_send_window_invariants`: a fresh channel sending one
message at time `0` with `maximum_transmission_time = 1`. -/
theorem c3_send_window_invariants_witness :
    ∃ (d : ℚ) (pkt : Packet ℕ),
      0 < d ∧ d ≤ (Output.init (α := ℕ) 0 1).maximum_transmission_time ∧
      pkt.transmission_start
        = max (Output.init (α := ℕ) 0 1).next_transmission_time
            ({ simulation_step := 0, simulation_time := 0,
               simulation_frequency := 1,
               simulation_period := 1 } : Time).simulation_time ∧
      pkt.transmission_end = pkt.transmission_start + d ∧
      (Output.send_message_core (Output.init (α := ℕ) 0 1)
          { simulation_step := 0, simulation_time := 0,
            simulation_frequency := 1, simulation_period := 1 }
          7 [2] (uniform 0 1 (1 / 2))).transmitted_packets
        = (Output.init (α := ℕ) 0 1).transmitted_packets ++ [pkt] := by
  obtain ⟨d, pkt, h1, h2, h3, h4, h5, -⟩ :=
    c3_send_window_invariants (Output.init (α := ℕ) 0 1)
      (Output.send_message_core (Output.init (α := ℕ) 0 1)
        { simulation_step := 0, simulation_time := 0,
          simulation_frequency := 1, simulation_period := 1 }
        7 [2] (uniform 0 1 (1 / 2)))
      { simulation_step := 0, simulation_time := 0,
        simulation_frequency := 1, simulation_period := 1 }
      (fun n => n == 0) 7 [2] (fun _ => 1 / 2) 1
      ⟨List.chain'_nil, by simp [Output.init], by simp [Output.init]⟩
      (fun i => by norm_num) rfl
      (by norm_num [Output.send_message, Output.drawTransmissionTime, uniform,
        Output.init])
  exact ⟨d, pkt, h1, h2, h3, h4, h5⟩

namespace Output

variable {α : Type}

/-- Once a node is outside a resolved target set, a `transmit_packets` call
cannot bring it back (and the set stays resolved). -/
theorem transmitOnePacket_not_mem (time : Time) (N : List ℕ)
    (p : Packet α) (ts : List ℕ) (x : ℕ)
    (hres : p.target_neighbors = some ts) (hx : x ∉ ts) :
    ∃ ts', (transmitOnePacket time N p).target_neighbors = some ts' ∧
      x ∉ ts' := by
  rw [transmitOnePacket_resolved time N p ts hres]
  split
  · split
    · exact ⟨ts, hres, hx⟩
    · refine ⟨setInter ts N, rfl, ?_⟩
      rw [mem_setInter]
      exact fun h => hx h.1
  · exact ⟨ts, hres, hx⟩

/-- A `transmit_packets` call whose clock time lies inside the packet's
window removes from the target set every node absent from the neighbor
snapshot — resolving the set first if necessary. -/
theorem transmitOnePacket_absent (time : Time) (N : List ℕ)
    (p : Packet α) (x : ℕ)
    (hper : 0 ≤ time.simulation_period)
    (hwin : p.transmission_start ≤ time.simulation_time ∧
            time.simulation_time ≤ p.transmission_end)
    (hx : x ∉ N) :
    ∃ ts', (transmitOnePacket time N p).target_neighbors = some ts' ∧
      x ∉ ts' := by
  rcases hres : p.target_neighbors with _ | ts
  · have hcond : p.transmission_start
        ≤ time.simulation_time + time.simulation_period :=
      le_trans hwin.1 (le_add_of_nonneg_right hper)
    rw [transmitOnePacket_unresolved time N p hres]
    simp only [get_transmission_neighbors, if_pos hcond]
    rw [if_pos hwin]
    split
    · next hN =>
      refine ⟨N, rfl, hx⟩
    · refine ⟨setInter N N, rfl, ?_⟩
      rw [mem_setInter]
      exact fun h => hx h.1
  · rw [transmitOnePacket_resolved time N p ts hres, if_pos hwin]
    split
    · next hN =>
      subst hN
      exact ⟨[], hres, List.not_mem_nil x⟩
    · refine ⟨setInter ts N, rfl, ?_⟩
      rw [mem_setInter]
      exact fun h => hx h.2

/-- Lift of `transmitOnePacket_not_mem` to a whole sequence of later
`transmit_packets` calls. -/
theorem transmitTrace_not_mem (x : ℕ) :
    ∀ (calls : List (Time × List ℕ)) (p : Packet α) (ts : List ℕ),
      p.target_neighbors = some ts → x ∉ ts →
      ∃ ts', (transmitTrace calls p).target_neighbors = some ts' ∧ x ∉ ts'
  | [], _, ts, hres, hx => ⟨ts, hres, hx⟩
  | c :: calls, p, ts, hres, hx => by
    obtain ⟨ts₁, h1, h2⟩ := transmitOnePacket_not_mem c.1 c.2 p ts x hres hx
    exact transmitTrace_not_mem x calls _ ts₁ h1 h2

end Output

/-- **C1**: while the clock time lies inside a packet's window,
`transmit_packets` replaces a resolved target set by its intersection with
the step's neighbor list, so the set only shrinks; consequently a node
absent from the sender's neighbor list at any step overlapping the window is
absent from the target set after that call, stays absent under every later
`transmit_packets` call (even with neighbor lists containing it again), and
is absent from the surviving target list `setDiff targets losses` that
`deliver_packet` returns for the packet. -/
theorem c1_target_set_shrinks {α : Type} (p : Packet α) (time : Time)
    (N : List ℕ) (x : ℕ)
    (hper : 0 ≤ time.simulation_period)
    (hwin : p.transmission_start ≤ time.simulation_time ∧
            time.simulation_time ≤ p.transmission_end) :
    (∀ ts, p.target_neighbors = some ts →
       ∀ y, y ∈ (Output.transmitOnePacket time N p).targets ↔
         y ∈ ts ∧ y ∈ N) ∧
    (x ∉ N →
      ∀ calls : List (Time × List ℕ),
        x ∉ (Output.transmitTrace calls
              (Output.transmitOnePacket time N p)).targets ∧
        ∀ (pl : ℕ → Bool) (idx : ℕ),
          x ∉ setDiff
            (Output.transmitTrace calls
              (Output.transmitOnePacket time N p)).targets
            (lossesOf pl idx
              (Output.transmitTrace calls
                (Output.transmitOnePacket time N p)).targets)) := by
  constructor
  · intro ts hres y
    rw [Output.transmitOnePacket_resolved time N p ts hres, if_pos hwin]
    split
    · next hN =>
      subst hN
      simp [Packet.targets, hres]
    · simp [Packet.targets, mem_setInter]
  · intro hx calls
    obtain ⟨ts₁, h1, h2⟩ :=
      Output.transmitOnePacket_absent time N p x hper hwin hx
    obtain ⟨ts', h3, h4⟩ :=
      Output.transmitTrace_not_mem x calls _ ts₁ h1 h2
    have htargets :
        (Output.transmitTrace calls
          (Output.transmitOnePacket time N p)).targets = ts' := by
      rw [Packet.targets, h3, Option.getD_some]
    rw [htargets]
    refine ⟨h4, fun pl idx => ?_⟩
    rw [mem_setDiff]
    exact fun h => h4 h.1

/-- Witness for `c1_target_set_shrinks`: node `1` leaves the neighbor set at
time `1` inside the window and is still gone after a later call that lists
it again. -/
theorem c1_target_set_shrinks_witness :
    1 ∉ (Output.transmitTrace
          [({ simulation_step := 2, simulation_time := 2,
              simulation_frequency := 1, simulation_period := 1 }, [1, 2, 3])]
          (Output.transmitOnePacket
            { simulation_step := 1, simulation_time := 1,
              simulation_frequency := 1, simulation_period := 1 }
            [2]
            ({ transmission_start := 1 / 2, transmission_end := 5 / 2,
               packet_id := 0, sender_message := (0, "m"),
               target_neighbors := some [1, 2, 3] } : Packet String))).targets :=
  ((c1_target_set_shrinks
      ({ transmission_start := 1 / 2, transmission_end := 5 / 2,
         packet_id := 0, sender_message := (0, "m"),
         target_neighbors := some [1, 2, 3] } : Packet String)
      { simulation_step := 1, simulation_time := 1,
        simulation_frequency := 1, simulation_period := 1 }
      [2] 1 (by norm_num) ⟨by norm_num, by norm_num⟩).2
    (by decide)
    [({ simulation_step := 2, simulation_time := 2,
        simulation_frequency := 1, simulation_period := 1 }, [1, 2, 3])]).1

namespace Output

variable {α : Type}

/-- A successful delivery strictly shrinks the packet queue. -/
theorem deliver_packet_length_lt (time : Time) (pl : ℕ → Bool) :
    ∀ (q : List (Packet α)) (idx : ℕ) (d : Delivery α) q' idx',
      deliver_packet time pl q idx = .ok (some d, q', idx') →
      q'.length < q.length
  | [], idx, d, q', idx', h => by
    rw [deliver_packet] at h
    simp at h
  | p :: rest, idx, d, q', idx', h => by
    rw [deliver_packet] at h
    split at h
    · simp at h
    · split at h
      · exact Except.noConfusion h
      · split at h
        · exact lt_trans (deliver_packet_length_lt time pl rest _ d q' idx' h)
            (Nat.lt_succ_self _)
        · rw [Except.ok.injEq, Prod.mk.injEq] at h
          obtain ⟨-, h⟩ := h
          rw [Prod.mk.injEq] at h
          rw [← h.1]
          exact Nat.lt_succ_self _

/-- If one `deliver_packet` call coincides with another (as after silently
dropping a packet with no surviving targets), so do the delivery loops run
from them. -/
theorem deliver_repeat_bridge (time : Time) (pl : ℕ → Bool)
    (fuel : ℕ) (q r : List (Packet α)) (idx j : ℕ)
    (h : deliver_packet time pl q idx = deliver_packet time pl r j) :
    deliver_repeat time pl (fuel + 1) q idx
      = deliver_repeat time pl (fuel + 1) r j := by
  rw [deliver_repeat, h, deliver_repeat]

/-- Any fuel at least the queue length gives the stabilized result of the
delivery loop: the loop's iteration count is bounded by the queue length. -/
theorem deliver_repeat_fuel (time : Time) (pl : ℕ → Bool) :
    ∀ (fuel : ℕ) (q : List (Packet α)) (idx : ℕ), q.length ≤ fuel →
      deliver_repeat time pl fuel q idx
        = deliver_repeat time pl q.length q idx
  | 0, q, idx, hf => by
    rw [Nat.le_zero.mp (le_trans (Nat.le_refl _) hf)]
  | fuel + 1, q, idx, hf => by
    rcases hq : q.length with _ | m
    · rw [List.length_eq_zero.mp hq]
      rw [deliver_repeat, deliver_repeat, deliver_packet]
    · rw [deliver_repeat]
      rw [deliver_repeat]
      rcases hdp : deliver_packet time pl q idx with e | ⟨o, q', idx'⟩
      · rfl
      · rcases o with _ | d
        · rfl
        · have hlt : q'.length < q.length :=
            deliver_packet_length_lt time pl q idx d q' idx' hdp
          have h1 : deliver_repeat time pl fuel q' idx'
              = deliver_repeat time pl q'.length q' idx' :=
            deliver_repeat_fuel time pl fuel q' idx'
              (Nat.le_of_lt_succ (lt_of_lt_of_le hlt hf))
          have h2 : deliver_repeat time pl m q' idx'
              = deliver_repeat time pl q'.length q' idx' :=
            deliver_repeat_fuel time pl m q' idx'
              (Nat.le_of_lt_succ (lt_of_lt_of_le hlt (le_of_eq hq)))
          simp only [h1, h2]

/-- `deliver_packet` returns `None` and leaves everything unchanged when no
queued packet has finished. -/
theorem deliver_packet_none_of_unready (time : Time) (pl : ℕ → Bool)
    (q : List (Packet α)) (idx : ℕ)
    (h : ∀ p ∈ q, time.simulation_time < p.transmission_end) :
    deliver_packet time pl q idx = .ok (none, q, idx) := by
  cases q with
  | nil => rw [deliver_packet]
  | cons p rest =>
    rw [deliver_packet, if_pos (h p (List.mem_cons_self p rest))]

/-- With fuel equal to the queue length (enough for the orchestrator's
"call until `None`" loop), the delivery loop on a queue sorted by
`window_end`, whose finished packets are all resolved, removes exactly the
finished packets, advances the loss cursor by one draw per (packet, current
target) pair, and emits the surviving deliveries in queue order. -/
theorem deliver_drain (time : Time) (pl : ℕ → Bool) :
    ∀ (q : List (Packet α)) (idx : ℕ),
      q.Pairwise (fun a b => a.transmission_end ≤ b.transmission_end) →
      (∀ p ∈ q, p.transmission_end ≤ time.simulation_time →
         p.target_neighbors.isSome) →
      ∃ outs : List (Delivery α),
        deliver_repeat time pl q.length q idx
          = .ok (outs,
              q.filter
                (fun b => decide (time.simulation_time < b.transmission_end)),
              idx + ((q.filter (fun b =>
                  decide (b.transmission_end ≤ time.simulation_time))).map
                    (fun b => b.targets.length)).sum) ∧
        (outs.map (fun d => d.1)).Sublist
          ((q.filter (fun b =>
              decide (b.transmission_end ≤ time.simulation_time))).map
            (fun b => b.packet_id))
  | [], idx, _, _ => ⟨[], by simp [deliver_repeat], by simp⟩
  | p :: rest, idx, hsorted, hres => by
    obtain ⟨hp, hrest⟩ := List.pairwise_cons.mp hsorted
    by_cases hready : time.simulation_time < p.transmission_end
    · have hall : ∀ b ∈ p :: rest,
          time.simulation_time < b.transmission_end := by
        intro b hb
        rcases List.mem_cons.mp hb with hb | hb
        · rw [hb]; exact hready
        · exact lt_of_lt_of_le hready (hp b hb)
      have hfilter1 : (p :: rest).filter
          (fun b => decide (time.simulation_time < b.transmission_end))
          = p :: rest :=
        List.filter_eq_self.mpr (fun b hb => decide_eq_true (hall b hb))
      have hfilter2 : (p :: rest).filter
          (fun b => decide (b.transmission_end ≤ time.simulation_time))
          = [] := by
        rw [List.filter_eq_nil_iff]
        intro b hb
        simp only [decide_eq_true_eq]
        exact not_le.mpr (hall b hb)
      refine ⟨[], ?_, by rw [hfilter2]; exact List.Sublist.refl _⟩
      rw [List.length_cons, deliver_repeat,
        deliver_packet_none_of_unready time pl (p :: rest) idx hall,
        hfilter1, hfilter2]
      simp
    · have hfin : p.transmission_end ≤ time.simulation_time :=
        not_lt.mp hready
      obtain ⟨ts, hts⟩ := Option.isSome_iff_exists.mp
        (hres p (List.mem_cons_self p rest) hfin)
      obtain ⟨outs, hIH, hsub⟩ := deliver_drain time pl rest (idx + ts.length)
        hrest (fun b hb hbfin => hres b (List.mem_cons_of_mem p hb) hbfin)
      have hfilters : (p :: rest).filter
          (fun b => decide (time.simulation_time < b.transmission_end))
          = rest.filter
              (fun b => decide (time.simulation_time < b.transmission_end)) := by
        simp [List.filter_cons, hready]
      have hfilterr : (p :: rest).filter
          (fun b => decide (b.transmission_end ≤ time.simulation_time))
          = p :: rest.filter
              (fun b => decide (b.transmission_end ≤ time.simulation_time)) := by
        simp [List.filter_cons, hfin]
      have htslen : p.targets.length = ts.length := by
        rw [Packet.targets, hts, Option.getD_some]
      by_cases hsv : setDiff ts (lossesOf pl idx ts) = []
      · have hbridge : deliver_packet time pl (p :: rest) idx
            = deliver_packet time pl rest (idx + ts.length) := by
          rw [deliver_packet, if_neg hready]
          simp only [hts]
          rw [if_pos hsv]
        refine ⟨outs, ?_, ?_⟩
        · rw [List.length_cons,
            deliver_repeat_bridge time pl rest.length (p :: rest) rest idx
              (idx + ts.length) hbridge,
            deliver_repeat_fuel time pl (rest.length + 1) rest
              (idx + ts.length) (Nat.le_succ _),
            hIH, hfilters, hfilterr, List.map_cons, List.sum_cons, htslen,
            Nat.add_assoc]
        · rw [hfilterr, List.map_cons]
          exact hsub.cons _
      · have hstep : deliver_packet time pl (p :: rest) idx
            = .ok (some (p.packet_id, p.sender_message,
                setDiff ts (lossesOf pl idx ts)), rest, idx + ts.length) := by
          rw [deliver_packet, if_neg hready]
          simp only [hts]
          rw [if_neg hsv]
        refine ⟨(p.packet_id, p.sender_message,
            setDiff ts (lossesOf pl idx ts)) :: outs, ?_, ?_⟩
        · rw [List.length_cons, deliver_repeat, hstep]
          simp only [hIH]
          rw [hfilters, hfilterr, List.map_cons, List.sum_cons, htslen,
            Nat.add_assoc]
        · rw [hfilterr, List.map_cons, List.map_cons]
          exact hsub.cons₂ _

end Output

/-- **C2**: `deliver_packet` returns `None`, consuming nothing, when the
front packet's `window_end` exceeds the simulation time; for a finished
front packet it draws the loss model exactly once per current target,
silently drops the packet when no target survives (continuing with the new
front), and otherwise pops it and returns
`(packet_id, (sender_id, payload), remaining_targets)`; hence on a queue
sorted by non-decreasing `window_end` whose finished packets are resolved,
repeated calls within one step remove exactly the finished packets, deliver
the surviving ones in queue order (non-decreasing `window_end`), and a
further call then returns `None`. -/
theorem c2_deliver_packet_drains {α : Type} (time : Time) (pl : ℕ → Bool)
    (q : List (Packet α)) (idx : ℕ)
    (hsorted : q.Pairwise (fun a b => a.transmission_end ≤ b.transmission_end))
    (hres : ∀ p ∈ q, p.transmission_end ≤ time.simulation_time →
       p.target_neighbors.isSome) :
    (∀ p rest, q = p :: rest → time.simulation_time < p.transmission_end →
       Output.deliver_packet time pl q idx = .ok (none, q, idx)) ∧
    (∀ p rest ts, q = p :: rest →
       p.transmission_end ≤ time.simulation_time →
       p.target_neighbors = some ts →
       (setDiff ts (lossesOf pl idx ts) = [] →
          Output.deliver_packet time pl q idx
            = Output.deliver_packet time pl rest (idx + ts.length)) ∧
       (setDiff ts (lossesOf pl idx ts) ≠ [] →
          Output.deliver_packet time pl q idx
            = .ok (some (p.packet_id, p.sender_message,
                setDiff ts (lossesOf pl idx ts)), rest, idx + ts.length))) ∧
    (∃ outs : List (Delivery α),
       Output.deliver_repeat time pl q.length q idx
         = .ok (outs,
             q.filter
               (fun b => decide (time.simulation_time < b.transmission_end)),
             idx + ((q.filter (fun b =>
                 decide (b.transmission_end ≤ time.simulation_time))).map
                   (fun b => b.targets.length)).sum) ∧
       (outs.map (fun d => d.1)).Sublist
         ((q.filter (fun b =>
             decide (b.transmission_end ≤ time.simulation_time))).map
           (fun b => b.packet_id)) ∧
       (∀ d ∈ outs, ∃ p, p ∈ q ∧
          p.transmission_end ≤ time.simulation_time ∧
          d.1 = p.packet_id ∧ d.2.1 = p.sender_message ∧ d.2.2 ≠ [] ∧
          ∀ y ∈ d.2.2, y ∈ p.targets) ∧
       (∀ idx₂ : ℕ, Output.deliver_packet time pl
           (q.filter
             (fun b => decide (time.simulation_time < b.transmission_end)))
           idx₂
         = .ok (none,
             q.filter
               (fun b => decide (time.simulation_time < b.transmission_end)),
             idx₂))) := by
  refine ⟨?_, ?_, ?_⟩
  · intro p rest hq hready
    subst hq
    rw [Output.deliver_packet, if_pos hready]
  · intro p rest ts hq hfin hts
    subst hq
    constructor
    · intro hsv
      rw [Output.deliver_packet, if_neg (not_lt.mpr hfin)]
      simp only [hts]
      rw [if_pos hsv]
    · intro hsv
      rw [Output.deliver_packet, if_neg (not_lt.mpr hfin)]
      simp only [hts]
      rw [if_neg hsv]
  · obtain ⟨outs, hmain, hsub⟩ :=
      Output.deliver_drain time pl q idx hsorted hres
    refine ⟨outs, hmain, hsub, ?_, ?_⟩
    · exact Output.deliver_repeat_mem time pl q.length q idx outs _ _ hmain
    · intro idx₂
      refine Output.deliver_packet_none_of_unready time pl _ idx₂ ?_
      intro b hb
      have := List.of_mem_filter hb
      rwa [decide_eq_true_eq] at this

/-- Witness for `c2_deliver_packet_drains`: a single unfinished packet is
left untouched and `None` is returned. -/
theorem c2_deliver_packet_drains_witness :
    Output.deliver_packet
      { simulation_step := 1, simulation_time := 1,
        simulation_frequency := 1, simulation_period := 1 }
      (fun _ => false)
      [({ transmission_start := 3 / 2, transmission_end := 2,
          packet_id := 0, sender_message := (0, "m"),
          target_neighbors := some [1] } : Packet String)] 0
      = .ok (none,
          [({ transmission_start := 3 / 2, transmission_end := 2,
              packet_id := 0, sender_message := (0, "m"),
              target_neighbors := some [1] } : Packet String)], 0) :=
  (c2_deliver_packet_drains
      { simulation_step := 1, simulation_time := 1,
        simulation_frequency := 1, simulation_period := 1 }
      (fun _ => false)
      [({ transmission_start := 3 / 2, transmission_end := 2,
          packet_id := 0, sender_message := (0, "m"),
          target_neighbors := some [1] } : Packet String)] 0
      (List.pairwise_singleton _ _)
      (fun p hp _ => by rw [List.mem_singleton.mp hp]; rfl)).1
    _ [] rfl (by norm_num)

/-- **C8**: an empty (falsy) payload is discarded without error and without
creating a packet (the channel state is returned unchanged); a non-empty
payload always appends one packet carrying it; a falsy payload can never be
delivered — if no queued packet carries a falsy payload, no delivery does —
and hence never enters a mailbox, as `capture_packet` appends exactly the
delivered `(sender, message)` pairs. -/
theorem c8_empty_payload {α : Type} (st : Output α) (time : Time)
    (falsy : α → Bool) (msg : α) (N : List ℕ) (r : ℕ → ℚ) (fuel : ℕ) :
    (falsy msg = true →
       Output.send_message st time falsy msg N r fuel = some st) ∧
    (∀ st', falsy msg = false →
       Output.send_message st time falsy msg N r fuel = some st' →
       ∃ pkt, st'.transmitted_packets = st.transmitted_packets ++ [pkt] ∧
         pkt.sender_message = (st.node_id, msg)) ∧
    (∀ q : List (Packet α), (∀ p ∈ q, falsy p.sender_message.2 = false) →
       ∀ (fuel₂ : ℕ) (pl : ℕ → Bool) (idx : ℕ) outs q' idx',
         Output.deliver_repeat time pl fuel₂ q idx = .ok (outs, q', idx') →
         ∀ d ∈ outs, falsy d.2.1.2 = false) ∧
    (∀ st', Output.send_message st time falsy msg N r fuel = some st' →
       falsy msg = false →
       (∀ p ∈ st.transmitted_packets, falsy p.sender_message.2 = false) →
       ∀ p ∈ st'.transmitted_packets, falsy p.sender_message.2 = false) ∧
    (∀ (inp : Input α) (pkt : ℤ × (ℕ × α)), falsy pkt.2.2 = false →
       (∀ m ∈ inp.captured_packets, falsy m.2 = false) →
       ∀ m ∈ (inp.capture_packet pkt).captured_packets, falsy m.2 = false) := by
  refine ⟨?_, ?_, ?_, ?_, ?_⟩
  · intro h
    rw [Output.send_message, if_pos h]
  · intro st' hmsg hsend
    rw [Output.send_message, if_neg (by rw [hmsg]; exact Bool.false_ne_true)] at hsend
    rcases hdraw : Output.drawTransmissionTime st.maximum_transmission_time r fuel
      with _ | d
    · rw [hdraw] at hsend
      exact Option.noConfusion hsend
    · rw [hdraw, Option.map_some'] at hsend
      rw [Option.some.injEq] at hsend
      subst hsend
      exact ⟨_, rfl, rfl⟩
  · intro q hq fuel₂ pl idx outs q' idx' hdel d hd
    obtain ⟨p, hp, -, -, hsm, -⟩ :=
      Output.deliver_repeat_mem time pl fuel₂ q idx outs q' idx' hdel d hd
    rw [hsm]
    exact hq p hp
  · intro st' hsend hmsg hq p hp
    rw [Output.send_message, if_neg (by rw [hmsg]; exact Bool.false_ne_true)] at hsend
    rcases hdraw : Output.drawTransmissionTime st.maximum_transmission_time r fuel
      with _ | d
    · rw [hdraw] at hsend
      exact Option.noConfusion hsend
    · rw [hdraw, Option.map_some', Option.some.injEq] at hsend
      subst hsend
      rcases List.mem_append.mp hp with hp | hp
      · exact hq p hp
      · rw [List.mem_singleton.mp hp]
        exact hmsg
  · intro inp pkt hpkt hinp m hm
    rcases List.mem_append.mp hm with hm | hm
    · exact hinp m hm
    · rw [List.mem_singleton.mp hm]
      exact hpkt

/-- Witness for `c8_empty_payload` with the empty string as falsy payload. -/
theorem c8_empty_payload_witness :
    Output.send_message (Output.init (α := String) 3 1)
      { simulation_step := 0, simulation_time := 0,
        simulation_frequency := 1, simulation_period := 1 }
      (fun s => s.isEmpty) "" [1, 2] (fun _ => 1 / 2) 4
      = some (Output.init (α := String) 3 1) :=
  (c8_empty_payload (Output.init 3 1)
      { simulation_step := 0, simulation_time := 0,
        simulation_frequency := 1, simulation_period := 1 }
      (fun s => s.isEmpty) "" [1, 2] (fun _ => 1 / 2) 4).1 rfl

/-- **C10**: channel construction accepts `maximum_transmission_time = 0.0`
and rejects exactly the strictly negative values; `uniform(0.0, 0.0)` always
yields `0.0`, so with a zero maximum the transmission-time re-draw loop of
`send_message` never terminates for a non-empty payload; with a positive
maximum it terminates as soon as some raw `random()` draw is positive
(which holds for every actual generator run, an all-zero draw stream having
probability zero). -/
theorem c10_zero_max_transmission_time {α : Type} (node_id : ℤ) (M : ℚ)
    (time : Time) (falsy : α → Bool) (msg : α) (N : List ℕ)
    (hnid : 0 ≤ node_id) (hmsg : falsy msg = false) :
    (Channel.init (α := α) node_id 0 = .ok (Output.init node_id.toNat 0)) ∧
    ((∃ e, Channel.init (α := α) node_id M = .error e) ↔ M < 0) ∧
    (∀ rr : ℚ, uniform 0 0 rr = 0) ∧
    (∀ st : Output α, st.maximum_transmission_time = 0 →
       ∀ (r : ℕ → ℚ) (fuel : ℕ),
         Output.send_message st time falsy msg N r fuel = none) ∧
    (∀ st : Output α, 0 < st.maximum_transmission_time →
       ∀ r : ℕ → ℚ, (∃ i, 0 < r i) →
         ∃ fuel st', Output.send_message st time falsy msg N r fuel = some st') := by
  have hnotlt : ¬ node_id < 0 := not_lt.mpr hnid
  refine ⟨?_, ?_, ?_, ?_, ?_⟩
  · rw [Channel.init, if_neg hnotlt, if_neg (lt_irrefl 0)]
  · constructor
    · rintro ⟨e, he⟩
      rw [Channel.init, if_neg hnotlt] at he
      by_contra hM
      rw [if_neg hM] at he
      exact Except.noConfusion he
    · intro hM
      rw [Channel.init, if_neg hnotlt, if_pos hM]
      exact ⟨_, rfl⟩
  · intro rr
    rw [uniform]
    ring
  · intro st hM r fuel
    rw [Output.send_message, if_neg (by rw [hmsg]; exact Bool.false_ne_true),
      hM, Output.drawTransmissionTime_zero, Option.map_none']
  · intro st hM r hr
    obtain ⟨i, hi⟩ := hr
    have hpos : 0 < uniform 0 st.maximum_transmission_time (r i) := by
      rw [uniform]
      have := mul_pos hM hi
      linarith
    obtain ⟨d, hd⟩ := Output.drawTransmissionTime_isSome i r hpos
    refine ⟨i + 1, Output.send_message_core st time msg N d, ?_⟩
    rw [Output.send_message, if_neg (by rw [hmsg]; exact Bool.false_ne_true), hd,
      Option.map_some']

/-- Witness for `c10_zero_max_transmission_time`: the hang at
`maximum_transmission_time = 0` and termination at `1`. -/
theorem c10_zero_max_transmission_time_witness :
    Output.send_message (Output.init (α := ℕ) 0 0)
      { simulation_step := 0, simulation_time := 0,
        simulation_frequency := 1, simulation_period := 1 }
      (fun n => n == 0) 1 [2] (fun _ => 1 / 2) 5 = none ∧
    ∃ fuel st', Output.send_message (Output.init (α := ℕ) 0 1)
      { simulation_step := 0, simulation_time := 0,
        simulation_frequency := 1, simulation_period := 1 }
      (fun n => n == 0) 1 [2] (fun _ => 1 / 2) fuel = some st' := by
  have h := c10_zero_max_transmission_time (α := ℕ) 0 1
    { simulation_step := 0, simulation_time := 0,
      simulation_frequency := 1, simulation_period := 1 }
    (fun n => n == 0) 1 [2] le_rfl rfl
  exact ⟨h.2.2.2.1 _ rfl _ 5,
         h.2.2.2.2 _ (by norm_num [Output.init]) _ ⟨0, by norm_num⟩⟩

namespace Network

variable {α γ σ : Type}

/-- The events recorded by `captureAll` are exactly one capture per receiver
in the delivered target list. -/
theorem captureAll_snd (inputs : List (Input α)) (d : Delivery α) :
    (captureAll inputs d).2
      = d.2.2.map (fun r => Event.capture r d.2.1.1) := by
  rw [captureAll]
  suffices h : ∀ (rs : List ℕ) (acc : List (Input α) × List Event),
      (rs.foldl
        (fun acc receiver =>
          (acc.1.set receiver ((acc.1.getD receiver default).capture_packet
             (d.1, d.2.1)),
           acc.2 ++ [Event.capture receiver d.2.1.1]))
        acc).2
        = acc.2 ++ rs.map (fun r => Event.capture r d.2.1.1) by
    have h2 := h d.2.2 (inputs, [])
    simpa using h2
  intro rs
  induction rs with
  | nil => intro acc; simp
  | cons r rs ih =>
    intro acc
    rw [List.foldl_cons, ih, List.map_cons]
    simp

/-- All events produced by the per-node capture fold are capture events. -/
theorem capture_fold_events :
    ∀ (ds : List (Delivery α)) (acc : List (Input α) × List Event),
      (∀ e ∈ acc.2, ∃ a b, e = Event.capture a b) →
      ∀ e ∈ (ds.foldl
          (fun acc d => ((captureAll acc.1 d).1, acc.2 ++ (captureAll acc.1 d).2))
          acc).2,
        ∃ a b, e = Event.capture a b
  | [], acc, hacc => hacc
  | d :: ds, acc, hacc => by
    rw [List.foldl_cons]
    refine capture_fold_events ds _ ?_
    intro e he
    rcases List.mem_append.mp he with he | he
    · exact hacc e he
    · rw [captureAll_snd] at he
      obtain ⟨r, -, hr⟩ := List.mem_map.mp he
      exact ⟨r, d.2.1.1, hr.symm⟩

/-- All events recorded by one node's delivery loop are capture events. -/
theorem deliverNode_events (time : Time) (pl : ℕ → Bool) (ch : Output α)
    (idx : ℕ) (inputs : List (Input α))
    (res : Output α × ℕ × List (Input α) × List Event)
    (h : deliverNode time pl ch idx inputs = .ok res) :
    ∀ e ∈ res.2.2.2, ∃ a b, e = Event.capture a b := by
  rw [deliverNode] at h
  split at h
  · exact Except.noConfusion h
  · rw [Except.ok.injEq] at h
    subst h
    exact capture_fold_events _ _ (fun e he => by simp at he)

/-- All events recorded by the delivery half of the communication phase are
delivery-loop or capture events (phase 4). -/
theorem deliver_all_events (pls : ℕ → ℕ → Bool) (time : Time) :
    ∀ (nodes : List ℕ) (chs : List (Output α)) (idxs : List ℕ)
      (inputs : List (Input α))
      (res : List (Output α) × List ℕ × List (Input α) × List Event),
      deliver_all pls time nodes chs idxs inputs = .ok res →
      ∀ e ∈ res.2.2.2, e.phase = 4
  | [], chs, idxs, inputs, res, h => by
    rw [deliver_all, Except.ok.injEq] at h
    subst h
    intro e he
    simp at he
  | node :: nodes, chs, idxs, inputs, res, h => by
    rw [deliver_all] at h
    split at h
    · exact Except.noConfusion h
    · next ch' idx' inputs' ev hr₁ =>
      split at h
      · exact Except.noConfusion h
      · next chs' idxs' inputs'' evs hr₂ =>
        rw [Except.ok.injEq] at h
        subst h
        intro e he
        simp only [List.mem_append] at he
        rcases he with he | he
        · rcases List.mem_cons.mp he with he | he
          · rw [he]; rfl
          · obtain ⟨a, b, hab⟩ := deliverNode_events time (pls node)
              (chs.getD node default) (idxs.getD node 0) inputs
              (ch', idx', inputs', ev) hr₁ e he
            rw [hab]; rfl
        · exact deliver_all_events pls time nodes (chs.set node ch')
            (idxs.set node idx') inputs' (chs', idxs', inputs'', evs) hr₂ e he

/-- The communication phase only rewrites the channels, loss cursors and
mailboxes; its trace is the transmissions of **all** nodes, in node order,
followed only by delivery/capture events. -/
theorem communication_phase_ok {env : Environment α γ σ}
    {st stC : Network α γ σ} {eC : List Event}
    (h : communication_phase env st = .ok (stC, eC)) :
    stC.nodes_number = st.nodes_number ∧
    stC.time = st.time ∧
    stC.current_time = st.current_time ∧
    stC.failed = st.failed ∧
    stC.neighbors = st.neighbors ∧
    stC.coordinates = st.coordinates ∧
    stC.speeds = st.speeds ∧
    ∃ eD, eC = (List.range st.nodes_number).map Event.transmit ++ eD ∧
      ∀ e ∈ eD, e.phase = 4 := by
  rw [communication_phase] at h
  split at h
  · exact Except.noConfusion h
  · next chs idxs inputs evD heq =>
    rw [Except.ok.injEq, Prod.mk.injEq] at h
    obtain ⟨hst, htr⟩ := h
    subst hst
    refine ⟨rfl, rfl, rfl, rfl, rfl, rfl, rfl, evD, htr.symm, ?_⟩
    exact deliver_all_events env.packet_loss st.time
      (List.range st.nodes_number) _ st.loss_idx st.inputs
      (chs, idxs, inputs, evD) heq

/-- Elimination form of a successful `Network.step`: the communication phase
succeeded on the state produced by the failure, move and neighborhood
phases, the final state is the communication result with the clock ticked,
and the trace is the concatenation of the phase traces with the tick event
last. -/
theorem step_ok_elim [Inhabited γ] [Inhabited σ]
    {env : Environment α γ σ} {st st' : Network α γ σ} {tr : List Event}
    (h : step env st = .ok (st', tr)) :
    ∃ (stC : Network α γ σ) (eC : List Event),
      communication_phase env
          ((neighborhood_phase env
            ((move_phase env ((failure_phase env st).1)).1)).1)
        = .ok (stC, eC) ∧
      st' = { stC with time := stC.time.tick.1,
                       current_time := stC.time.tick.2 } ∧
      tr = (failure_phase env st).2
           ++ (move_phase env ((failure_phase env st).1)).2
           ++ (neighborhood_phase env
                ((move_phase env ((failure_phase env st).1)).1)).2
           ++ eC
           ++ application_phase stC
           ++ [Event.clockTick stC.time.tick.2] := by
  rw [step] at h
  split at h
  · exact Except.noConfusion h
  · next stC eC heq =>
    rw [Except.ok.injEq, Prod.mk.injEq] at h
    obtain ⟨hst, htr⟩ := h
    refine ⟨stC, eC, heq, hst.symm, ?_⟩
    rw [← htr]

end Network

/-- A list of events with a constant phase is phase-sorted. -/
theorem pairwise_phase_const {l : List Event} {c : ℕ}
    (h : ∀ e ∈ l, e.phase = c) :
    l.Pairwise (fun a b => a.phase ≤ b.phase) := by
  induction l with
  | nil => exact List.Pairwise.nil
  | cons e l ih =>
    rw [List.pairwise_cons]
    refine ⟨fun b hb => ?_, ih (fun b hb => h b (List.mem_cons_of_mem e hb))⟩
    rw [h e (List.mem_cons_self e l), h b (List.mem_cons_of_mem e hb)]

/-- Concatenating phase-sorted traces across a phase boundary keeps them
phase-sorted. -/
theorem pairwise_phase_append {l₁ l₂ : List Event} {k : ℕ}
    (h₁ : l₁.Pairwise (fun a b => a.phase ≤ b.phase))
    (h₂ : l₂.Pairwise (fun a b => a.phase ≤ b.phase))
    (hb₁ : ∀ e ∈ l₁, e.phase ≤ k) (hb₂ : ∀ e ∈ l₂, k ≤ e.phase) :
    (l₁ ++ l₂).Pairwise (fun a b => a.phase ≤ b.phase) :=
  List.pairwise_append.mpr
    ⟨h₁, h₂, fun x hx y hy => le_trans (hb₁ x hx) (hb₂ y hy)⟩

theorem phase_ge_append {l₁ l₂ : List Event} {k : ℕ}
    (h₁ : ∀ e ∈ l₁, k ≤ e.phase) (h₂ : ∀ e ∈ l₂, k ≤ e.phase) :
    ∀ e ∈ l₁ ++ l₂, k ≤ e.phase := by
  intro e he
  rcases List.mem_append.mp he with he | he
  · exact h₁ e he
  · exact h₂ e he

/-- **C5**: a successful `Network.step` runs exactly the phases failure,
move, neighborhood, communication and application, in that order (its whole
trace is sorted by phase), with `transmit_packets` recorded for **all**
nodes, in node order, before any delivery/capture event; the clock advances
only at the very end (the single tick event closes the trace); every
application callback observes the `current_time` tuple produced by the tick
at the end of the previous `step` call, and the tick's result becomes the
`current_time` of the next step. -/
theorem c5_step_phase_order {α γ σ : Type} [Inhabited γ] [Inhabited σ]
    (env : Environment α γ σ) (st st' : Network α γ σ) (tr : List Event)
    (hstep : Network.step env st = .ok (st', tr)) :
    tr.Pairwise (fun a b => a.phase ≤ b.phase) ∧
    (∃ failT deliverT appT : List Event,
       tr = failT
            ++ (List.range st.nodes_number).map Event.move
            ++ [Event.neighborhoodRecompute]
            ++ ((List.range st.nodes_number).map Event.transmit ++ deliverT)
            ++ appT
            ++ [Event.clockTick st.time.tick.2] ∧
       (∀ e ∈ failT, ∃ node, e = Event.failureCb node st.current_time) ∧
       (∀ e ∈ deliverT, e.phase = 4) ∧
       (∀ e ∈ appT, ∃ node, e = Event.appMain node st.current_time)) ∧
    (∀ node c, Event.appMain node c ∈ tr → c = st.current_time) ∧
    tr.getLast? = some (Event.clockTick st.time.tick.2) ∧
    st'.current_time = st.time.tick.2 ∧
    st'.time = st.time.tick.1 := by
  obtain ⟨stC, eC, hcomm, hst', htr⟩ := Network.step_ok_elim hstep
  obtain ⟨hn, ht, hct, hfl, -, -, -, eD, heC, heD⟩ :=
    Network.communication_phase_ok hcomm
  have hnn : stC.nodes_number = st.nodes_number := hn.trans rfl
  have htt : stC.time = st.time := ht.trans rfl
  have hcc : stC.current_time = st.current_time := hct.trans rfl
  rw [heC] at htr
  have htr' : tr
      = (env.node_failure st.failed).2.map
          (fun node => Event.failureCb node st.current_time)
        ++ (List.range st.nodes_number).map Event.move
        ++ [Event.neighborhoodRecompute]
        ++ ((List.range st.nodes_number).map Event.transmit ++ eD)
        ++ Network.application_phase stC
        ++ [Event.clockTick st.time.tick.2] := by
    rw [htr, htt]
    rfl
  have happT : ∀ e ∈ Network.application_phase stC,
      ∃ node, e = Event.appMain node st.current_time := by
    intro e he
    rw [Network.application_phase] at he
    obtain ⟨node, -, hnode⟩ := List.mem_map.mp he
    exact ⟨node, by rw [← hnode, hcc]⟩
  have hph0 : ∀ e ∈ (env.node_failure st.failed).2.map
      (fun node => Event.failureCb node st.current_time), e.phase = 0 := by
    intro e he
    obtain ⟨n, -, hn'⟩ := List.mem_map.mp he
    rw [← hn']
    rfl
  have hph1 : ∀ e ∈ (List.range st.nodes_number).map Event.move,
      e.phase = 1 := by
    intro e he
    obtain ⟨n, -, hn'⟩ := List.mem_map.mp he
    rw [← hn']
    rfl
  have hph2 : ∀ e ∈ [Event.neighborhoodRecompute], e.phase = 2 := by
    intro e he
    rw [List.mem_singleton.mp he]
    rfl
  have hph3 : ∀ e ∈ (List.range st.nodes_number).map Event.transmit,
      e.phase = 3 := by
    intro e he
    obtain ⟨n, -, hn'⟩ := List.mem_map.mp he
    rw [← hn']
    rfl
  have hph5 : ∀ e ∈ Network.application_phase stC, e.phase = 5 := by
    intro e he
    obtain ⟨node, hnode⟩ := happT e he
    rw [hnode]
    rfl
  have hph6 : ∀ e ∈ [Event.clockTick st.time.tick.2], e.phase = 6 := by
    intro e he
    rw [List.mem_singleton.mp he]
    rfl
  refine ⟨?_, ⟨_, eD, _, htr', fun e he => ?_, heD, happT⟩, ?_, ?_, ?_, ?_⟩
  · -- the trace is sorted by phase
    rw [htr']
    simp only [List.append_assoc]
    have p56 := pairwise_phase_append (k := 5) (pairwise_phase_const hph5)
      (pairwise_phase_const hph6) (fun e he => le_of_eq (hph5 e he))
      (fun e he => by rw [hph6 e he]; norm_num)
    have g4 := phase_ge_append (k := 4)
      (fun e he => by rw [hph5 e he]; norm_num)
      (fun e he => by rw [hph6 e he]; norm_num)
    have p46 := pairwise_phase_append (k := 4) (pairwise_phase_const heD)
      p56 (fun e he => le_of_eq (heD e he)) g4
    have g3 := phase_ge_append (k := 3)
      (fun e he => by rw [heD e he]; norm_num)
      (fun e he => le_trans (by norm_num) (g4 e he))
    have p36 := pairwise_phase_append (k := 3) (pairwise_phase_const hph3)
      p46 (fun e he => le_of_eq (hph3 e he)) g3
    have g2 := phase_ge_append (k := 2)
      (fun e he => by rw [hph3 e he]; norm_num)
      (fun e he => le_trans (by norm_num) (g3 e he))
    have p26 := pairwise_phase_append (k := 2) (pairwise_phase_const hph2)
      p36 (fun e he => le_of_eq (hph2 e he)) g2
    have g1 := phase_ge_append (k := 1)
      (fun e he => by rw [hph2 e he]; norm_num)
      (fun e he => le_trans (by norm_num) (g2 e he))
    have p16 := pairwise_phase_append (k := 1) (pairwise_phase_const hph1)
      p26 (fun e he => le_of_eq (hph1 e he)) g1
    exact pairwise_phase_append (k := 0) (pairwise_phase_const hph0)
      p16 (fun e he => le_of_eq (hph0 e he)) (fun e he => Nat.zero_le _)
  · -- the failure-callback segment
    obtain ⟨n, -, hn'⟩ := List.mem_map.mp he
    exact ⟨n, hn'.symm⟩
  · -- application callbacks observe the previous tick's reading
    intro node c hmem
    rw [htr'] at hmem
    simp only [List.mem_append] at hmem
    rcases hmem with ((((h | h) | h) | h | h) | h) | h
    · obtain ⟨n, -, hn'⟩ := List.mem_map.mp h
      exact Event.noConfusion hn'
    · obtain ⟨n, -, hn'⟩ := List.mem_map.mp h
      exact Event.noConfusion hn'
    · exact Event.noConfusion (List.mem_singleton.mp h)
    · obtain ⟨n, -, hn'⟩ := List.mem_map.mp h
      exact Event.noConfusion hn'
    · have h4 := heD _ h
      exact absurd h4 (by norm_num [Event.phase])
    · obtain ⟨n, hn'⟩ := happT _ h
      rw [Event.appMain.injEq] at hn'
      exact hn'.2
    · exact Event.noConfusion (List.mem_singleton.mp h)
  · rw [htr']
    simp only [← List.append_assoc]
    exact List.getLast?_concat _
  · rw [hst']
    simp only
    rw [htt]
  · rw [hst']
    simp only
    rw [htt]

/-- Witness for `c5_step_phase_order`: one step of a 1-node network with
trivial collaborators. -/
theorem c5_step_phase_order_witness :
    ([Event.move 0, Event.neighborhoodRecompute, Event.transmit 0,
      Event.deliverLoop 0, Event.appMain 0 ((0 : ℤ), (0 : ℚ)),
      Event.clockTick ((1 : ℤ), (1 : ℚ))] : List Event).Pairwise
      (fun a b => a.phase ≤ b.phase) :=
  (c5_step_phase_order (α := ℕ) (γ := ℚ × ℚ) (σ := ℚ)
    { node_failure := fun fl => (fl, [])
      get_current_position := fun _ _ c => c
      get_neighbors := fun _ => [[]]
      packet_loss := fun _ _ => false }
    { nodes_number := 1
      time := { simulation_step := 0, simulation_time := 0,
                simulation_frequency := 1, simulation_period := 1 }
      coordinates := [((0 : ℚ), (0 : ℚ))]
      speeds := [1]
      neighbors := [[]]
      channels := [Output.init 0 1]
      inputs := [{ node_id := 0, captured_packets := [] }]
      failed := [false]
      loss_idx := [0]
      current_time := (0, 0) }
    { nodes_number := 1
      time := { simulation_step := 1, simulation_time := 1,
                simulation_frequency := 1, simulation_period := 1 }
      coordinates := [((0 : ℚ), (0 : ℚ))]
      speeds := [1]
      neighbors := [[]]
      channels := [Output.init 0 1]
      inputs := [{ node_id := 0, captured_packets := [] }]
      failed := [false]
      loss_idx := [0]
      current_time := (1, 1) }
    [Event.move 0, Event.neighborhoodRecompute, Event.transmit 0,
     Event.deliverLoop 0, Event.appMain 0 (0, 0), Event.clockTick (1, 1)]
    (by norm_num [Network.step, Network.failure_phase, Network.move_phase,
      Network.neighborhood_phase, Network.communication_phase,
      Network.deliver_all, Network.deliverNode, Network.application_phase,
      Network.captureAll, Output.transmit_packets, Output.deliver_repeat,
      Output.deliver_packet, Output.init, Time.tick, setDiff,
      List.range_succ])).1

theorem getD_map_range {β : Type} (f : ℕ → β) (dflt : β) (n b : ℕ) :
    ((List.range n).map f).getD b dflt = if b < n then f b else dflt := by
  rcases lt_or_le b n with h | h
  · rw [if_pos h, List.getD_eq_getElem?_getD,
      List.getElem?_eq_getElem (by simpa using h)]
    simp
  · rw [if_neg (not_lt.mpr h), List.getD_eq_getElem?_getD,
      List.getElem?_eq_none (by simpa using h)]
    rfl

/-- **C6**: provided the failure collaborator never clears a failure flag
(as the crash model guarantees), a node `a` whose flag is set keeps it set
at every later step; its application `main` callback never runs again; its
coordinates are still recomputed by the mobility model each step; after the
neighborhood phase `a` appears in **no** node's neighbor list, while every
node's list — including `a`'s own — consists exactly of its raw propagation
neighbors that are not currently failed, so `a`'s own list is not emptied on
account of `a`'s own failure. -/
theorem c6_failed_node_behavior {α γ σ : Type} [Inhabited γ] [Inhabited σ]
    (env : Environment α γ σ) (st : Network α γ σ) (a : ℕ)
    (hmono : ∀ (fl : List Bool) (i : ℕ), fl.getD i false = true →
       (env.node_failure fl).1.getD i false = true)
    (ha : st.failed.getD a false = true) :
    (∀ (st' : Network α γ σ) (tr : List Event),
       Network.step env st = .ok (st', tr) →
       st'.failed.getD a false = true ∧
       (∀ c, Event.appMain a c ∉ tr) ∧
       (a < st.nodes_number →
         st'.coordinates.getD a default
           = env.get_current_position a (st.speeds.getD a default)
               (st.coordinates.getD a default)) ∧
       (∀ b, a ∉ st'.neighbors.getD b []) ∧
       (∀ b x, x ∈ st'.neighbors.getD b [] ↔
          b < st.nodes_number ∧
          x ∈ (env.get_neighbors
                ((List.range st.nodes_number).map (fun node =>
                  env.get_current_position node (st.speeds.getD node default)
                    (st.coordinates.getD node default)))).getD b [] ∧
          (env.node_failure st.failed).1.getD x false = false)) ∧
    (∀ (k : ℕ) (st' : Network α γ σ) (tr : List Event),
       Network.stepN env k st = .ok (st', tr) →
       st'.failed.getD a false = true ∧ ∀ c, Event.appMain a c ∉ tr) := by
  have key : ∀ s : Network α γ σ, s.failed.getD a false = true →
      ∀ (st' : Network α γ σ) (tr : List Event),
      Network.step env s = .ok (st', tr) →
      st'.failed.getD a false = true ∧
      (∀ c, Event.appMain a c ∉ tr) ∧
      (a < s.nodes_number →
        st'.coordinates.getD a default
          = env.get_current_position a (s.speeds.getD a default)
              (s.coordinates.getD a default)) ∧
      (∀ b, a ∉ st'.neighbors.getD b []) ∧
      (∀ b x, x ∈ st'.neighbors.getD b [] ↔
         b < s.nodes_number ∧
         x ∈ (env.get_neighbors
               ((List.range s.nodes_number).map (fun node =>
                 env.get_current_position node (s.speeds.getD node default)
                   (s.coordinates.getD node default)))).getD b [] ∧
         (env.node_failure s.failed).1.getD x false = false) := by
    intro s hs st' tr hstep
    obtain ⟨stC, eC, hcomm, hst', htr⟩ := Network.step_ok_elim hstep
    obtain ⟨hn, ht, hct, hfl, hnb, hco, hsp, eD, heC, heD⟩ :=
      Network.communication_phase_ok hcomm
    have hfail1 : (env.node_failure s.failed).1.getD a false = true :=
      hmono s.failed a hs
    have hstf : st'.failed = (env.node_failure s.failed).1 := by
      rw [hst']
      exact hfl.trans rfl
    have hstc : st'.coordinates
        = (List.range s.nodes_number).map (fun node =>
            env.get_current_position node (s.speeds.getD node default)
              (s.coordinates.getD node default)) := by
      rw [hst']
      exact hco.trans rfl
    have hstn : st'.neighbors
        = (List.range s.nodes_number).map (fun node =>
            setDiff
              ((env.get_neighbors
                ((List.range s.nodes_number).map (fun node =>
                  env.get_current_position node (s.speeds.getD node default)
                    (s.coordinates.getD node default)))).getD node [])
              (((env.get_neighbors
                ((List.range s.nodes_number).map (fun node =>
                  env.get_current_position node (s.speeds.getD node default)
                    (s.coordinates.getD node default)))).getD node []).filter
                (fun nb => (env.node_failure s.failed).1.getD nb false))) := by
      rw [hst']
      exact hnb.trans rfl
    have hmem : ∀ b x, x ∈ st'.neighbors.getD b [] ↔
        b < s.nodes_number ∧
        x ∈ (env.get_neighbors
              ((List.range s.nodes_number).map (fun node =>
                env.get_current_position node (s.speeds.getD node default)
                  (s.coordinates.getD node default)))).getD b [] ∧
        (env.node_failure s.failed).1.getD x false = false := by
      intro b x
      rw [hstn, getD_map_range]
      rcases lt_or_le b s.nodes_number with hb | hb
      · rw [if_pos hb]
        rw [mem_setDiff]
        constructor
        · rintro ⟨hx, hnf⟩
          refine ⟨hb, hx, ?_⟩
          rcases hbool : (env.node_failure s.failed).1.getD x false with _ | _
          · rfl
          · exact absurd (List.mem_filter.mpr ⟨hx, hbool⟩) hnf
        · rintro ⟨-, hx, hfalse⟩
          refine ⟨hx, fun hmemf => ?_⟩
          have := (List.mem_filter.mp hmemf).2
          rw [hfalse] at this
          exact Bool.false_ne_true this
      · rw [if_neg (not_lt.mpr hb)]
        simp [not_lt.mpr hb]
    refine ⟨by rw [hstf]; exact hfail1, ?_, ?_, ?_, hmem⟩
    · -- `main` is never invoked on the failed node
      intro c hc
      rw [heC] at htr
      have htr' : tr
          = (env.node_failure s.failed).2.map
              (fun node => Event.failureCb node s.current_time)
            ++ (List.range s.nodes_number).map Event.move
            ++ [Event.neighborhoodRecompute]
            ++ ((List.range s.nodes_number).map Event.transmit ++ eD)
            ++ Network.application_phase stC
            ++ [Event.clockTick stC.time.tick.2] := by
        rw [htr]
        rfl
      rw [htr'] at hc
      simp only [List.mem_append] at hc
      rcases hc with ((((h | h) | h) | h | h) | h) | h
      · obtain ⟨n', -, hn'⟩ := List.mem_map.mp h
        exact Event.noConfusion hn'
      · obtain ⟨n', -, hn'⟩ := List.mem_map.mp h
        exact Event.noConfusion hn'
      · exact Event.noConfusion (List.mem_singleton.mp h)
      · obtain ⟨n', -, hn'⟩ := List.mem_map.mp h
        exact Event.noConfusion hn'
      · have h4 := heD _ h
        exact absurd h4 (by norm_num [Event.phase])
      · rw [Network.application_phase] at h
        obtain ⟨n', hn'mem, hn'⟩ := List.mem_map.mp h
        rw [Event.appMain.injEq] at hn'
        obtain ⟨hn'a, -⟩ := hn'
        subst hn'a
        have hfilter := List.mem_filter.mp hn'mem
        have hCfail : stC.failed = (env.node_failure s.failed).1 :=
          hfl.trans rfl
        rw [hCfail] at hfilter
        have := hfilter.2
        rw [decide_eq_true_eq] at this
        exact this hfail1
      · exact Event.noConfusion (List.mem_singleton.mp h)
    · -- coordinates are still recomputed by the mobility model
      intro haN
      rw [hstc, getD_map_range, if_pos haN]
    · -- the failed node is in no neighbor list
      intro b hmema
      have := (hmem b a).mp hmema
      rw [this.2.2] at hfail1
      exact Bool.false_ne_true hfail1
  refine ⟨key st ha, ?_⟩
  have hk : ∀ (k : ℕ) (s : Network α γ σ), s.failed.getD a false = true →
      ∀ (st' : Network α γ σ) (tr : List Event),
      Network.stepN env k s = .ok (st', tr) →
      st'.failed.getD a false = true ∧ ∀ c, Event.appMain a c ∉ tr := by
    intro k
    induction k with
    | zero =>
      intro s hs st' tr h
      rw [Network.stepN, Except.ok.injEq, Prod.mk.injEq] at h
      obtain ⟨h1, h2⟩ := h
      rw [← h1, ← h2]
      exact ⟨hs, fun c hc => by simp at hc⟩
    | succ k ih =>
      intro s hs st' tr h
      rw [Network.stepN] at h
      split at h
      · exact Except.noConfusion h
      · next st₁ tr₁ hstep =>
        split at h
        · exact Except.noConfusion h
        · next st₂ trs hrec =>
          rw [Except.ok.injEq, Prod.mk.injEq] at h
          obtain ⟨h1, h2⟩ := h
          obtain ⟨hf1, hnm1, -, -, -⟩ := key s hs st₁ tr₁ hstep
          obtain ⟨hf2, hnm2⟩ := ih st₁ hf1 st₂ trs hrec
          rw [← h1, ← h2]
          refine ⟨hf2, fun c hc => ?_⟩
          rcases List.mem_append.mp hc with hc | hc
          · exact hnm1 c hc
          · exact hnm2 c hc
  exact fun k => hk k st ha

/-- Witness for `c6_failed_node_behavior`: a 2-node network with node `1`
failed; after one step node `1` is absent from node `0`'s neighbor list and
node `1`'s `main` was not invoked. -/
theorem c6_failed_node_behavior_witness :
    ((1 : ℕ) ∉ (([[], [0]] : List (List ℕ)).getD 0 [])) ∧
    Event.appMain 1 ((0 : ℤ), (0 : ℚ))
      ∉ [Event.move 0, Event.move 1, Event.neighborhoodRecompute,
         Event.transmit 0, Event.transmit 1, Event.deliverLoop 0,
         Event.deliverLoop 1, Event.appMain 0 ((0 : ℤ), (0 : ℚ)),
         Event.clockTick ((1 : ℤ), (1 : ℚ))] := by
  have h := (c6_failed_node_behavior (α := ℕ) (γ := ℚ × ℚ) (σ := ℚ)
    { node_failure := fun fl => (fl, [])
      get_current_position := fun _ _ c => c
      get_neighbors := fun _ => [[1], [0]]
      packet_loss := fun _ _ => false }
    { nodes_number := 2
      time := { simulation_step := 0, simulation_time := 0,
                simulation_frequency := 1, simulation_period := 1 }
      coordinates := [((0 : ℚ), (0 : ℚ)), ((1 : ℚ), (0 : ℚ))]
      speeds := [1, 1]
      neighbors := [[1], [0]]
      channels := [Output.init 0 1, Output.init 1 1]
      inputs := [{ node_id := 0, captured_packets := [] },
                 { node_id := 1, captured_packets := [] }]
      failed := [false, true]
      loss_idx := [0, 0]
      current_time := (0, 0) }
    1 (fun fl i hi => hi) (by decide)).1
    { nodes_number := 2
      time := { simulation_step := 1, simulation_time := 1,
                simulation_frequency := 1, simulation_period := 1 }
      coordinates := [((0 : ℚ), (0 : ℚ)), ((1 : ℚ), (0 : ℚ))]
      speeds := [1, 1]
      neighbors := [[], [0]]
      channels := [Output.init 0 1, Output.init 1 1]
      inputs := [{ node_id := 0, captured_packets := [] },
                 { node_id := 1, captured_packets := [] }]
      failed := [false, true]
      loss_idx := [0, 0]
      current_time := (1, 1) }
    [Event.move 0, Event.move 1, Event.neighborhoodRecompute,
     Event.transmit 0, Event.transmit 1, Event.deliverLoop 0,
     Event.deliverLoop 1, Event.appMain 0 (0, 0), Event.clockTick (1, 1)]
    (by norm_num [Network.step, Network.failure_phase, Network.move_phase,
      Network.neighborhood_phase, Network.communication_phase,
      Network.deliver_all, Network.deliverNode, Network.application_phase,
      Network.captureAll, Output.transmit_packets, Output.deliver_repeat,
      Output.deliver_packet, Output.init, Time.tick, setDiff, List.set,
      List.range_succ])
  exact ⟨h.2.2.2.1 0, h.2.1 _⟩

/-- **C9**: `Time.setup(frequency)` raises `ValueError` exactly when
`frequency ≤ 0`; on success the clock starts with `simulation_step = -1` and
`simulation_time = -1.0`. -/
theorem c9_setup_validation (f : ℤ) :
    ((∃ e, Time.setup f = .error e) ↔ f ≤ 0) ∧
    (∀ t : Time, Time.setup f = .ok t →
       t.simulation_step = -1 ∧ t.simulation_time = -1) := by
  constructor
  · constructor
    · rintro ⟨e, he⟩
      by_contra hf
      rw [Time.setup_ok (not_le.mp hf)] at he
      exact Except.noConfusion he
    · intro hf
      exact ⟨_, by rw [Time.setup, if_pos hf]⟩
  · intro t ht
    rcases le_or_lt f 0 with hf | hf
    · rw [Time.setup, if_pos hf] at ht
      exact Except.noConfusion ht
    · rw [Time.setup_ok hf] at ht
      injection ht with ht
      subst ht
      exact ⟨rfl, rfl⟩

/-- Witness for `c9_setup_validation`: `setup 0` errors, `setup 4` yields
`simulation_step = -1` and `simulation_time = -1.0`. -/
theorem c9_setup_validation_witness :
    (0 : ℤ) ≤ 0 ∧
    ({ simulation_step := -1, simulation_time := -1,
       simulation_frequency := ((4 : ℤ) : ℚ),
       simulation_period := 1 / ((4 : ℤ) : ℚ) } : Time).simulation_step = -1 :=
  ⟨(c9_setup_validation 0).1.mp ⟨_, by rw [Time.setup, if_pos le_rfl]⟩,
   ((c9_setup_validation 4).2 _ (Time.setup_ok (by decide))).1⟩

end Sim2net
